import Mathlib

/-!
A shallow embedding of the delayed-substitution engine of eix
(src/eixrc/eixrc.cc, class EixRc), together with proofs about it.

Strings are modelled as lists of characters (`Str`); the std::map of
configuration values as an association list with first-match lookup; the
std::set of visited keys as a list.  Loops that are not structurally
recursive on their input take an explicit fuel argument; fuelled functions
that can fail return `none` when the fuel runs out, and every statement
about them is made either for all fuel values or at a fuel that is
demonstrably sufficient.
-/

abbrev Str : Type := List Char

deriving instance DecidableEq for Except

namespace EixRc

/-- charAt models the octet access `str[i]` of std::string; reading the
terminator position (or beyond) yields the NUL character, as the const
overload of operator[] does. -/
def charAt (s : Str) (i : Nat) : Char := s.getD i (Char.ofNat 0)

/-- substr models `str.substr(pos, len)`. -/
def substr (s : Str) (pos len : Nat) : Str := (s.drop pos).take len

/-- eraseRange models `str.erase(pos, len)`. -/
def eraseRange (s : Str) (pos len : Nat) : Str := s.take pos ++ s.drop (pos + len)

/-- replaceRange models `str.replace(pos, len, t)`. -/
def replaceRange (s : Str) (pos len : Nat) (t : Str) : Str :=
  s.take pos ++ t ++ s.drop (pos + len)

/-- asciiLower models C `tolower` in the C locale, as used by strcasecmp. -/
def asciiLower (c : Char) : Char :=
  if 65 ≤ c.toNat ∧ c.toNat ≤ 90 then Char.ofNat (c.toNat + 32) else c

/-- lowerStr lowers a whole string; `lowerStr s = lowerStr t` models
`strcasecmp(s, t) == 0`. -/
def lowerStr (s : Str) : Str := s.map asciiLower

/-- istrue models EixRc::istrue (eixrc.cc line 474): five case-insensitive
comparisons against "true", "1", "yes", "y", "on". -/
def istrue (s : Str) : Bool :=
  (lowerStr s == "true".data) || (lowerStr s == "1".data) || (lowerStr s == "yes".data) ||
    (lowerStr s == "y".data) || (lowerStr s == "on".data)

/-- DelayedType is the classification enum consumed by the resolver. -/
inductive DelayedType where
  | DelayedNotFound
  | DelayedVariable
  | DelayedIf
  | DelayedNotif
  | DelayedElse
  | DelayedFi
deriving DecidableEq

/-- isPfxOf l s tests whether l is a leading segment of s. -/
def isPfxOf : Str → Str → Bool
  | [], _ => true
  | _ :: _, [] => false
  | a :: as, b :: bs => a == b && isPfxOf as bs

/-- firstMatch s pat is the offset of the first occurrence of pat in s. -/
def firstMatch : Str → Str → Option Nat
  | [], pat => if isPfxOf pat [] then some 0 else none
  | s@(_ :: t), pat => if isPfxOf pat s then some 0 else (firstMatch t pat).map (fun n => n + 1)

/-- strFind models `str.find(pat, pos)`; `none` stands for npos. -/
def strFind (s pat : Str) (pos : Nat) : Option Nat :=
  (firstMatch (s.drop pos) pat).map (fun n => n + pos)

/-- isNameCharB is the character-set test of the inner name loop of
find_next_delayed: `_`, a digit, or an ASCII letter. -/
def isNameCharB (c : Char) : Bool :=
  (c == '_') || decide (48 ≤ c.toNat ∧ c.toNat ≤ 57) ||
    decide (65 ≤ c.toNat ∧ c.toNat ≤ 90) || decide (97 ≤ c.toNat ∧ c.toNat ≤ 122)

/-- isFirstNameCharB is the test on the first name character: `*`, `_`, or
an ASCII letter. -/
def isFirstNameCharB (c : Char) : Bool :=
  (c == '*') || (c == '_') ||
    decide (65 ≤ c.toNat ∧ c.toNat ≤ 90) || decide (97 ≤ c.toNat ∧ c.toNat ≤ 122)

/-- nameSpan counts the leading name characters of a suffix; it mirrors the
inner `for(;;) { c = str[i++]; ... }` loop of find_next_delayed, which stops
at the first non-name character (reading NUL at the end of the string). -/
def nameSpan : Str → Nat
  | [] => 0
  | c :: rest => if isNameCharB c then nameSpan rest + 1 else 0

/-- CandResult is the outcome of one iteration of the rescan loop of
find_next_delayed: either the loop returns, or it restarts at a new
position (a `continue` after a rejected candidate marker). -/
inductive CandResult where
  | done (r : DelayedType × Nat × Nat)
  | again (pos2 : Nat)
deriving DecidableEq

/-- findNextCand is one iteration of the `for(;; pos += 2)` loop body of
EixRc::find_next_delayed (eixrc.cc line 404): find the next "%\x7b", reject
it when escaped by a preceding '%' or when the name is malformed
(restarting two characters further), otherwise classify it.  On
DelayedNotFound the returned position models npos (the source leaves
both outputs untouched there; no caller reads them). -/
def findNextCand (s : Str) (pos : Nat) : CandResult :=
  match strFind s ('%' :: ['\x7b']) pos with
  | none => CandResult.done (DelayedType.DelayedNotFound, s.length + 1, 0)
  | some p =>
    if 0 < p ∧ charAt s (p - 1) = '%' then CandResult.again (p + 2)
    else if charAt s (p + 2) = '\x7d' then CandResult.done (DelayedType.DelayedFi, p, 3)
    else
      let ty := if charAt s (p + 2) = '?' then DelayedType.DelayedIf
                else if charAt s (p + 2) = '!' then DelayedType.DelayedNotif
                else DelayedType.DelayedVariable
      let nstart := if ty = DelayedType.DelayedVariable then p + 2 else p + 3
      if isFirstNameCharB (charAt s nstart) = false then CandResult.again (p + 2)
      else
        let j := (nstart + 1) + nameSpan (s.drop (nstart + 1))
        if charAt s j ≠ '\x7d' then CandResult.again (p + 2)
        else
          let ty2 := if lowerStr (substr s (p + 2) (j - (p + 2))) = "else".data
                     then DelayedType.DelayedElse else ty
          CandResult.done (ty2, p, j + 1 - p)

/-- findNextAux iterates findNextCand.  Each `again` restarts at least two
characters further (at strFind result + 2), so the loop body runs at most
length/2 + 1 times; the wrapper find_next_delayed passes more than enough
fuel. -/
def findNextAux : Nat → Str → Nat → DelayedType × Nat × Nat
  | 0, s, _ => (DelayedType.DelayedNotFound, s.length + 1, 0)
  | fuel + 1, s, pos =>
    match findNextCand s pos with
    | CandResult.done r => r
    | CandResult.again pos2 => findNextAux fuel s pos2

/-- find_next_delayed models EixRc::find_next_delayed (eixrc.cc line 404):
locate and classify the next unescaped directive at or after pos. -/
def find_next_delayed (s : Str) (pos : Nat) : DelayedType × Nat × Nat :=
  findNextAux (s.length + 2) s pos

/-- RcState is the mutable state of EixRc during resolution: the main
string map and the has_reference set. -/
structure RcState where
  config : List (Str × Str)
  hasRef : List Str
deriving DecidableEq

/-- RcError carries (errtext, errvar) exactly as the source writes them. -/
abbrev RcError : Type := Str × Str

abbrev RcResult : Type := Option (Except RcError RcState)

/-- setC models assignment `map[k] = v` on std::map (unique keys). -/
def setC : List (Str × Str) → Str → Str → List (Str × Str)
  | [], k, v => [(k, v)]
  | kv :: rest, k, v => if kv.1 = k then (k, v) :: rest else kv :: setC rest k v

/-- lookupO models `map.find(k)` (presence-aware lookup). -/
def lookupO : List (Str × Str) → Str → Option Str
  | [], _ => none
  | kv :: rest, k => if kv.1 = k then some kv.2 else lookupO rest k

/-- lookupC models `(*this)[key]`: a missing key reads as the empty string
(std::map operator[] value-initialises the entry; actually inserting the
empty string is observationally equal for this code). -/
def lookupC (m : List (Str × Str)) (k : Str) : Str := (lookupO m k).getD []

/-- insertS models `set.insert` on std::set over a duplicate-free list. -/
def insertS (l : List Str) (k : Str) : List Str := if k ∈ l then l else l ++ [k]

/-- skip_loop models the inner Fi-searching loop of
EixRc::resolve_delayed_recurse (eixrc.cc lines 245 to 292).  The skippos
argument already includes the `skippos += length` update of the `for`
head, so the branches that set `length = 0` pass the unchanged position.
The (unsigned) post-decrement `if(count --)` is modelled by the test
`count ≠ 0` followed by `count - 1`; the wrapped value produced in the
count = 0 case is dead in the source.  The combination result = false,
delpos absent and gotelse = false is unreachable from the entry states and
is mapped to `none`. -/
def skip_loop : Nat → Str → Str → Nat → Bool → Bool → Option Nat → Nat →
    Option (Except RcError Str)
  | 0, _, _, _, _, _, _, _ => none
  | fuel + 1, key, value, skippos, result, gotelse, delpos, count =>
    match find_next_delayed value skippos with
    | (DelayedType.DelayedNotFound, _, _) => some (Except.error ("IF without FI".data, key))
    | (DelayedType.DelayedFi, p, len) =>
      if count ≠ 0 then skip_loop fuel key value (p + len) result gotelse delpos (count - 1)
      else
        match delpos with
        | none => some (Except.ok (eraseRange value p len))
        | some d => some (Except.ok (eraseRange value d (p + len - d)))
    | (DelayedType.DelayedElse, p, len) =>
      if count ≠ 0 then skip_loop fuel key value (p + len) result gotelse delpos count
      else if gotelse then some (Except.error ("double ELSE".data, key))
      else if result then skip_loop fuel key (eraseRange value p len) p result true (some p) count
      else
        match delpos with
        | some d => skip_loop fuel key (eraseRange value d (p + len - d)) d result true none count
        | none => none
    | (DelayedType.DelayedIf, p, len) =>
      skip_loop fuel key value (p + len) result gotelse delpos (count + 1)
    | (DelayedType.DelayedNotif, p, len) =>
      skip_loop fuel key value (p + len) result gotelse delpos (count + 1)
    | (DelayedType.DelayedVariable, p, len) =>
      skip_loop fuel key value (p + len) result gotelse delpos count

/-- targetOf is the referenced-name computation of
EixRc::resolve_delayed_recurse (eixrc.cc lines 222 to 226): a name starting
with `*` resolves the key varpfx ++ remainder (varpfx models the member
varprefix), any other name is taken literally. -/
def targetOf (varpfx value : Str) (varpos varlength : Nat) : Str :=
  if charAt value varpos = '*' then varpfx ++ substr value (varpos + 1) (varlength - 1)
  else substr value varpos varlength

/-- resolve_loop models the outer `for(;;)` scan loop of
EixRc::resolve_delayed_recurse (eixrc.cc lines 190 to 293).  The source
recurses through resolve_delayed_recurse, whose entry check
`key ∉ has_reference → return value unchanged` is inlined at the one
recursive call site here so that the recursion is structural in the fuel;
the wrapper resolve_delayed_recurse below performs the same check for the
outermost call.  The visited set is threaded functionally: the source
inserts key before the recursive call and erases it right after, which is
passing `key :: visited` downwards and keeping `visited` for the rest. -/
def resolve_loop : Nat → Str → Str → List Str → RcState → Nat → RcResult
  | 0, _, _, _, _, _ => none
  | fuel + 1, varpfx, key, visited, st, pos =>
    let value := lookupC st.config key
    match find_next_delayed value pos with
    | (DelayedType.DelayedNotFound, _, _) =>
      some (Except.ok { st with hasRef := st.hasRef.erase key })
    | (DelayedType.DelayedFi, _, _) => some (Except.error ("FI without IF".data, key))
    | (DelayedType.DelayedElse, _, _) => some (Except.error ("ELSE without IF".data, key))
    | (ty, p, len) =>
      let will_test : Bool := decide (ty = DelayedType.DelayedIf) || decide (ty = DelayedType.DelayedNotif)
      let varpos := if will_test then p + 3 else p + 2
      let varlength := if will_test then len - 4 else len - 3
      if key ∈ visited then some (Except.error ("self-reference".data, key))
      else
        let target := targetOf varpfx value varpos varlength
        match (if target ∈ st.hasRef then resolve_loop fuel varpfx target (key :: visited) st 0
               else some (Except.ok st)) with
        | none => none
        | some (Except.error e) => some (Except.error e)
        | some (Except.ok st1) =>
          let value1 := lookupC st1.config key
          let s := lookupC st1.config target
          if will_test = false then
            resolve_loop fuel varpfx key visited
              { st1 with config := setC st1.config key (replaceRange value1 p len s) }
              (p + s.length)
          else
            let result := if istrue s then decide (ty = DelayedType.DelayedIf)
                          else decide (ty = DelayedType.DelayedNotif)
            match (if result then skip_loop fuel key (eraseRange value1 p len) p result false none 0
                   else skip_loop fuel key value1 (p + len) result false (some p) 0) with
            | none => none
            | some (Except.error e) => some (Except.error e)
            | some (Except.ok v2) =>
              resolve_loop fuel varpfx key visited
                { st1 with config := setC st1.config key v2 } p

/-- resolve_delayed_recurse models EixRc::resolve_delayed_recurse
(eixrc.cc line 184): the entry fast path plus the scan loop. -/
def resolve_delayed_recurse (fuel : Nat) (varpfx key : Str) (visited : List Str)
    (st : RcState) : RcResult :=
  if key ∈ st.hasRef then resolve_loop fuel varpfx key visited st 0 else some (Except.ok st)

/-- resolve_all models the driver loop of EixRc::read (eixrc.cc lines 146
to 159): every default key is resolved with a fresh visited set. -/
def resolve_all (fuel : Nat) (varpfx : Str) : List Str → RcState → RcResult
  | [], st => some (Except.ok st)
  | k :: ks, st =>
    match resolve_delayed_recurse fuel varpfx k [] st with
    | none => none
    | some (Except.error e) => some (Except.error e)
    | some (Except.ok st1) => resolve_all fuel varpfx ks st1

/-- unescape_loop models the final `%%{` pass of EixRc::read (eixrc.cc
lines 161 to 173): find "%%{" from pos, erase one character, continue two
characters further.  Each iteration shortens the string, so the fuel of
the wrapper is sufficient. -/
def unescape_loop : Nat → Str → Nat → Str
  | 0, s, _ => s
  | fuel + 1, s, pos =>
    match strFind s ('%' :: '%' :: ['\x7b']) pos with
    | none => s
    | some p => unescape_loop fuel (eraseRange s p 1) (p + 2)

def unescape_value (s : Str) : Str := unescape_loop (s.length + 2) s 0

/-- resolvedValue extracts the value of k after a successful resolution. -/
def resolvedValue (r : RcResult) (k : Str) : Option Str :=
  match r with
  | some (Except.ok st) => some (lookupC st.config k)
  | _ => none

/-! The layering builder: EixRc::read_undelayed and EixRc::join_delayed. -/

/-- Undelayed is the state built by read_undelayed: the defaults vector
(key and local value; the option type and description play no role here),
the set of known default keys, the main map, and has_reference. -/
structure Undelayed where
  defaults : List (Str × Str)
  dkeys : List Str
  config : List (Str × Str)
  hasRef : List Str
deriving DecidableEq

/-- join_delayed models EixRc::join_delayed (eixrc.cc line 382): an unknown
referenced key is registered as a LOCAL option, populated from the merged
overlay map if present there, else from the environment, else empty. -/
def join_delayed (tempmap : List (Str × Str)) (env : Str → Option Str) (key : Str)
    (u : Undelayed) : Undelayed :=
  if key ∈ u.dkeys then u
  else
    let val := match lookupO tempmap key with
      | some v => v
      | none =>
        match env key with
        | some e => e
        | none => []
    Undelayed.mk (u.defaults ++ [(key, val)]) (u.dkeys ++ [key]) (setC u.config key val) u.hasRef

/-- joins_scan models the directive-discovery scan over one default value
(eixrc.cc lines 348 to 378): it lists, in order, every Variable, If or
Notif directive of the value as a pair (name starts with `*`, name without
the `*`); Fi and Else markers are skipped.  The position and length
adjustments of the source (pos += 2, length -= 2 for Variable; pos += 3,
length -= 3 for If/Notif; then substr(pos+1, length-2) after `*` and
substr(pos, length-1) otherwise) are applied here directly. -/
def joins_scan : Nat → Str → Nat → List (Bool × Str)
  | 0, _, _ => []
  | fuel + 1, str, pos =>
    match find_next_delayed str pos with
    | (DelayedType.DelayedNotFound, _, _) => []
    | (DelayedType.DelayedVariable, p, len) =>
      (if charAt str (p + 2) = '*' then (true, substr str (p + 3) (len - 4))
       else (false, substr str (p + 2) (len - 3))) :: joins_scan fuel str (p + len)
    | (DelayedType.DelayedIf, p, len) =>
      (if charAt str (p + 3) = '*' then (true, substr str (p + 4) (len - 5))
       else (false, substr str (p + 3) (len - 4))) :: joins_scan fuel str (p + len)
    | (DelayedType.DelayedNotif, p, len) =>
      (if charAt str (p + 3) = '*' then (true, substr str (p + 4) (len - 5))
       else (false, substr str (p + 3) (len - 4))) :: joins_scan fuel str (p + len)
    | (_, p, len) => joins_scan fuel str (p + len)

/-- scan_value runs joins_scan with sufficient fuel (every step advances
the scan position by at least three). -/
def scan_value (str : Str) : List (Bool × Str) := joins_scan (str.length + 2) str 0

/-- apply_joins performs the join_delayed calls for the scanned directive
names of one value: a name after `*` is joined under both conventional
prefixes (EIX_VARS_PREFIX and DIFF_EIX_VARS_PREFIX, modelled as the
parameters eixPfx and diffPfx since the macros live in a header that is
not part of this repository snapshot), any other name is joined as is. -/
def apply_joins (tempmap : List (Str × Str)) (env : Str → Option Str) (eixPfx diffPfx : Str) :
    List (Bool × Str) → Undelayed → Undelayed
  | [], u => u
  | item :: rest, u =>
    let u1 := if item.1 then
        join_delayed tempmap env (diffPfx ++ item.2) (join_delayed tempmap env (eixPfx ++ item.2) u)
      else join_delayed tempmap env item.2 u
    apply_joins tempmap env eixPfx diffPfx rest u1

/-- discover models the delayed-reference discovery loop of read_undelayed
(eixrc.cc lines 346 to 379).  The source iterates `i` against the live
defaults.size(), so entries appended by join_delayed are scanned as well;
the fuel bounds that unbounded growth (which in the source is bounded by
the finite environment). -/
def discover : Nat → List (Str × Str) → (Str → Option Str) → Str → Str →
    Undelayed → Nat → Undelayed
  | 0, _, _, _, _, u, _ => u
  | fuel + 1, tempmap, env, eixPfx, diffPfx, u, i =>
    match u.defaults.get? i with
    | none => u
    | some d =>
      let items := scan_value d.2
      let u1 := if items = [] then u else { u with hasRef := insertS u.hasRef d.1 }
      discover fuel tempmap env eixPfx diffPfx (apply_joins tempmap env eixPfx diffPfx items u1) (i + 1)

/-- read_undelayed models EixRc::read_undelayed (eixrc.cc line 299).
The two overlay files are modelled from the spec as flat key-to-value
lists merged entry by entry on top of the working map, since the
VarsReader collaborator that produces them is not part of this repository
snapshot (the spec treats it as a black box that yields a flat overlay).
The environment override then rewrites every entry of the working map
whose exact key names an environment variable. -/
def read_undelayed (fuel : Nat) (defaults0 sysfile userfile : List (Str × Str))
    (env : Str → Option Str) (eixPfx diffPfx : Str) : Undelayed :=
  let dkeys0 := defaults0.foldl (fun ks d => insertS ks d.1) []
  let temp0 := defaults0.foldl (fun m d => setC m d.1 d.2) []
  let temp1 := sysfile.foldl (fun m kv => setC m kv.1 kv.2) temp0
  let temp2 := userfile.foldl (fun m kv => setC m kv.1 kv.2) temp1
  let temp3 := temp2.map (fun kv => (kv.1, match env kv.1 with | some v => v | none => kv.2))
  let dres := defaults0.map (fun d => (d.1, lookupC temp3 d.1))
  let config0 := dres.foldl (fun m d => setC m d.1 d.2) []
  discover fuel temp3 env eixPfx diffPfx (Undelayed.mk dres dkeys0 config0 []) 0

/-- eixrc_resolve_pass models the resolution part of EixRc::read (eixrc.cc
lines 146 to 173): resolve every default key in order, each with a fresh
visited set, then run the `%%{` to `%{` pass over every value. -/
def eixrc_resolve_pass (fuel : Nat) (varpfx : Str) (u : Undelayed) :
    Option (Except RcError (List (Str × Str))) :=
  match resolve_all fuel varpfx (u.defaults.map Prod.fst) (RcState.mk u.config u.hasRef) with
  | none => none
  | some (Except.error e) => some (Except.error e)
  | some (Except.ok st) => some (Except.ok (st.config.map (fun kv => (kv.1, unescape_value kv.2))))

/-! The redundancy-flag classifier: EixRc::getRedundantFlagAtom and
EixRc::getRedundantFlags. -/

/-- RedAtom models the bitmask record configured by getRedundantFlagAtom;
each field is a Keywords::Redundant bitmask. -/
structure RedAtom where
  red : Nat
  all : Nat
  spc : Nat
  ins : Nat
  only : Nat
  oins : Nat
deriving DecidableEq

/-- andNot x t computes the bitwise `x & ~t`; on Nat this is subtraction of
the common bits, which is exact because `x &&& t` is a sub-mask of x. -/
def andNot (x t : Nat) : Nat := x - (x &&& t)

/-- getRedundantFlagAtom models EixRc::getRedundantFlagAtom (eixrc.cc line
55).  The C string argument is an Option (NULL becomes none); the bool
result and the by-reference atom become a pair, so that the mutations the
source performs before returning false (the only-bit clear and the sign
handling) are preserved for the caller, exactly as in C++. -/
def getRedundantFlagAtom (s0 : Option Str) (t : Nat) (r0 : RedAtom) : Bool × RedAtom :=
  let r1 := { r0 with only := andNot r0.only t }
  match s0 with
  | none => (true, { r1 with red := andNot r1.red t })
  | some sIn =>
    let sr : Str × RedAtom :=
      if charAt sIn 0 = '+' then (sIn.drop 1, { r1 with only := r1.only ||| t, oins := r1.oins ||| t })
      else if charAt sIn 0 = '-' then (sIn.drop 1, { r1 with only := r1.only ||| t, oins := andNot r1.oins t })
      else (sIn, r1)
    let s := sr.1
    let r2 := sr.2
    if lowerStr s = "no".data ∨ lowerStr s = "false".data then
      (true, { r2 with red := andNot r2.red t })
    else if lowerStr s = "some".data then
      (true, { r2 with red := r2.red ||| t, all := andNot r2.all t, spc := andNot r2.spc t })
    else if lowerStr s = "some-installed".data then
      (true, { r2 with red := r2.red ||| t, all := andNot r2.all t, spc := r2.spc ||| t, ins := r2.ins ||| t })
    else if lowerStr s = "some-uninstalled".data then
      (true, { r2 with red := r2.red ||| t, all := andNot r2.all t, spc := r2.spc ||| t, ins := andNot r2.ins t })
    else if lowerStr s = "all".data then
      (true, { r2 with red := r2.red ||| t, all := r2.all ||| t, spc := andNot r2.spc t })
    else if lowerStr s = "all-installed".data then
      (true, { r2 with red := r2.red ||| t, all := r2.all ||| t, spc := r2.spc ||| t, ins := r2.ins ||| t })
    else if lowerStr s = "all-uninstalled".data then
      (true, { r2 with red := r2.red ||| t, all := r2.all ||| t, spc := r2.spc ||| t, ins := andNot r2.ins t })
    else (false, r2)

def isSpaceChar (c : Char) : Bool := (c == ' ') || (c == '\t') || (c == '\r') || (c == '\n')

/-- split_string models the call `split_string(value)` of getRedundantFlags.
Modelled from the spec and the split_string_template of
src/eixTk/stringutils.cc with the header defaults (the header is not part
of this repository snapshot): split at whitespace, drop empty fields, no
escape handling. -/
def split_string : Str → Str → List Str
  | [], cur => if cur = [] then [] else [cur.reverse]
  | c :: rest, cur =>
    if isSpaceChar c then (if cur = [] then split_string rest [] else cur.reverse :: split_string rest [])
    else split_string rest (c :: cur)

/-- isSepTok recognises the or-separator tokens (strcasecmp against "or",
"||", "|"). -/
def isSepTok (s : Str) : Bool :=
  (lowerStr s == "or".data) || (lowerStr s == "||".data) || (lowerStr s == "|".data)

/-- getRedundantFlags models EixRc::getRedundantFlags (eixrc.cc line 489),
applied to the resolved value of the key.  The returned Bool is true
exactly when the source prints the "unknown value" warning and substitutes
the fall-back pair; the dummy `for` loop with its break-to-warning control
flow is transcribed case by case, and the fall-back always operates on
the atoms as mutated so far, as the by-reference p does in the source. -/
def getRedundantFlags (value : Str) (t : Nat) (p : RedAtom × RedAtom) :
    (RedAtom × RedAtom) × Bool :=
  let a := split_string value []
  let fallback : (RedAtom × RedAtom) → (RedAtom × RedAtom) × Bool := fun pr =>
    (((getRedundantFlagAtom (some "all-installed".data) t pr.1).2,
      (getRedundantFlagAtom none t pr.2).2), true)
  match a with
  | [] => fallback p
  | s1 :: rest =>
    match getRedundantFlagAtom (some s1) t p.1 with
    | (false, r1bad) => fallback (r1bad, p.2)
    | (true, r1) =>
      match rest with
      | [] => ((r1, (getRedundantFlagAtom none t p.2).2), false)
      | s2 :: rest2 =>
        let step : Option (Str × List Str) :=
          if isSepTok s2 then
            (match rest2 with
             | [] => none
             | s3 :: rest3 => some (s3, rest3))
          else some (s2, rest2)
        match step with
        | none => fallback (r1, p.2)
        | some (sx, restx) =>
          match getRedundantFlagAtom (some sx) t r1 with
          | (false, r2bad) => fallback (r2bad, p.2)
          | (true, r2) =>
            match restx with
            | [] => ((r2, p.2), false)
            | _ :: _ => fallback (r2, p.2)

/-! A second resolver variant that follows the specification text of the
scan-cursor discipline, for comparison with the one embedded from the
source (used to settle the claim about where scanning resumes after a
conditional block). -/

/-- Modelled from the spec: skip_loop_speccursor is skip_loop except that a
successful return also carries the position immediately after the retained
text of the conditional block, as the specification describes the resume
position ("resume scanning from the position immediately after the
retained text"). -/
def skip_loop_speccursor : Nat → Str → Str → Nat → Bool → Bool → Option Nat → Nat →
    Option (Except RcError (Str × Nat))
  | 0, _, _, _, _, _, _, _ => none
  | fuel + 1, key, value, skippos, result, gotelse, delpos, count =>
    match find_next_delayed value skippos with
    | (DelayedType.DelayedNotFound, _, _) => some (Except.error ("IF without FI".data, key))
    | (DelayedType.DelayedFi, p, len) =>
      if count ≠ 0 then skip_loop_speccursor fuel key value (p + len) result gotelse delpos (count - 1)
      else
        match delpos with
        | none => some (Except.ok (eraseRange value p len, p))
        | some d => some (Except.ok (eraseRange value d (p + len - d), d))
    | (DelayedType.DelayedElse, p, len) =>
      if count ≠ 0 then skip_loop_speccursor fuel key value (p + len) result gotelse delpos count
      else if gotelse then some (Except.error ("double ELSE".data, key))
      else if result then skip_loop_speccursor fuel key (eraseRange value p len) p result true (some p) count
      else
        match delpos with
        | some d => skip_loop_speccursor fuel key (eraseRange value d (p + len - d)) d result true none count
        | none => none
    | (DelayedType.DelayedIf, p, len) =>
      skip_loop_speccursor fuel key value (p + len) result gotelse delpos (count + 1)
    | (DelayedType.DelayedNotif, p, len) =>
      skip_loop_speccursor fuel key value (p + len) result gotelse delpos (count + 1)
    | (DelayedType.DelayedVariable, p, len) =>
      skip_loop_speccursor fuel key value (p + len) result gotelse delpos count

/-- Modelled from the spec: resolve_loop_speccursor is resolve_loop except
that after a completed conditional block it resumes scanning from the
position immediately after the retained text, as the specification
phrases the cursor discipline, instead of from the start of the retained
text as the source does. -/
def resolve_loop_speccursor : Nat → Str → Str → List Str → RcState → Nat → RcResult
  | 0, _, _, _, _, _ => none
  | fuel + 1, varpfx, key, visited, st, pos =>
    let value := lookupC st.config key
    match find_next_delayed value pos with
    | (DelayedType.DelayedNotFound, _, _) =>
      some (Except.ok { st with hasRef := st.hasRef.erase key })
    | (DelayedType.DelayedFi, _, _) => some (Except.error ("FI without IF".data, key))
    | (DelayedType.DelayedElse, _, _) => some (Except.error ("ELSE without IF".data, key))
    | (ty, p, len) =>
      let will_test : Bool := decide (ty = DelayedType.DelayedIf) || decide (ty = DelayedType.DelayedNotif)
      let varpos := if will_test then p + 3 else p + 2
      let varlength := if will_test then len - 4 else len - 3
      if key ∈ visited then some (Except.error ("self-reference".data, key))
      else
        let target := targetOf varpfx value varpos varlength
        match (if target ∈ st.hasRef then resolve_loop_speccursor fuel varpfx target (key :: visited) st 0
               else some (Except.ok st)) with
        | none => none
        | some (Except.error e) => some (Except.error e)
        | some (Except.ok st1) =>
          let value1 := lookupC st1.config key
          let s := lookupC st1.config target
          if will_test = false then
            resolve_loop_speccursor fuel varpfx key visited
              { st1 with config := setC st1.config key (replaceRange value1 p len s) }
              (p + s.length)
          else
            let result := if istrue s then decide (ty = DelayedType.DelayedIf)
                          else decide (ty = DelayedType.DelayedNotif)
            match (if result then skip_loop_speccursor fuel key (eraseRange value1 p len) p result false none 0
                   else skip_loop_speccursor fuel key value1 (p + len) result false (some p) 0) with
            | none => none
            | some (Except.error e) => some (Except.error e)
            | some (Except.ok v2) =>
              resolve_loop_speccursor fuel varpfx key visited
                { st1 with config := setC st1.config key v2.1 } v2.2

/-- Modelled from the spec: entry wrapper for resolve_loop_speccursor. -/
def resolve_speccursor (fuel : Nat) (varpfx key : Str) (visited : List Str)
    (st : RcState) : RcResult :=
  if key ∈ st.hasRef then resolve_loop_speccursor fuel varpfx key visited st 0
  else some (Except.ok st)

end EixRc

namespace EixRc

/-- dq nm is the single-directive value "%\x7bnm\x7d". -/
def dq (nm : Str) : Str := '%' :: '\x7b' :: (nm ++ ['\x7d'])

/-- cycleState is the two-key mutual-reference configuration: A's value is
"%\x7bB\x7d", B's value is "%\x7bA\x7d", and both are in has_reference. -/
def cycleState (A B : Str) : RcState := RcState.mk [(A, dq B), (B, dq A)] [A, B]

/-- kK is the concrete key under resolution in the template configurations. -/
def kK : Str := ['K']

/-- vIfElse is the template value "%\x7b?X\x7dA%\x7belse\x7dB%\x7b\x7d". -/
def vIfElse : Str := "%\x7b?X\x7dA%\x7belse\x7dB%\x7b\x7d".data

/-- vNotifElse is the template value "%\x7b!X\x7dA%\x7belse\x7dB%\x7b\x7d". -/
def vNotifElse : Str := "%\x7b!X\x7dA%\x7belse\x7dB%\x7b\x7d".data

/-- stIfElse v: K holds the If-with-else template, X holds v. -/
def stIfElse (v : Str) : RcState := RcState.mk [(kK, vIfElse), (['X'], v)] [kK]

/-- stNotifElse v: K holds the Notif-with-else template, X holds v. -/
def stNotifElse (v : Str) : RcState := RcState.mk [(kK, vNotifElse), (['X'], v)] [kK]

/-- vIfNoElse is the template value "%\x7b?X\x7dA%\x7b\x7d". -/
def vIfNoElse : Str := "%\x7b?X\x7dA%\x7b\x7d".data

/-- stIfNoElse v: K holds the If-without-else template, X holds v. -/
def stIfNoElse (v : Str) : RcState := RcState.mk [(kK, vIfNoElse), (['X'], v)] [kK]

/-- vNested is the template value "%\x7b?X\x7d%\x7b?Y\x7dA%\x7b\x7d%\x7b\x7d". -/
def vNested : Str := "%\x7b?X\x7d%\x7b?Y\x7dA%\x7b\x7d%\x7b\x7d".data

/-- stNested vx vy: K holds the nested-conditional template, X and Y hold
vx and vy. -/
def stNested (vx vy : Str) : RcState :=
  RcState.mk [(kK, vNested), (['X'], vx), (['Y'], vy)] [kK]

/-- vStar is the template value "%\x7b*bar\x7d". -/
def vStar : Str := "%\x7b*bar\x7d".data

/-- stStar vp v: K holds the star-indirection template and the key
vp ++ "bar" holds v. -/
def stStar (vp v : Str) : RcState := RcState.mk [(kK, vStar), (vp ++ "bar".data, v)] [kK]

/-- stUnterminated: K holds "%\x7b?X\x7dA", a conditional with no Fi. -/
def stUnterminated : RcState :=
  RcState.mk [(kK, "%\x7b?X\x7dA".data), (['X'], ['1'])] [kK]

/-- stDoubleElse: K holds a conditional with two Else markers at depth 0. -/
def stDoubleElse : RcState :=
  RcState.mk [(kK, "%\x7b?A\x7dx%\x7belse\x7dy%\x7belse\x7dz%\x7b\x7d".data), (['A'], ['1'])] [kK]

/-- stWellFormed: K holds a well-formed nested conditional with an inner
else, A truthy, B falsy. -/
def stWellFormed : RcState :=
  RcState.mk [(kK, "%\x7b?A\x7d%\x7b!B\x7dx%\x7belse\x7dy%\x7b\x7d%\x7b\x7d".data),
    (['A'], ['1']), (['B'], ['0'])] [kK]

/-- stRetained: K holds "%\x7b?X\x7d%\x7bY\x7d%\x7b\x7d" with X truthy, so the
retained branch itself contains a Variable directive. -/
def stRetained : RcState :=
  RcState.mk [(kK, "%\x7b?X\x7d%\x7bY\x7d%\x7b\x7d".data), (['X'], ['1']),
    (['Y'], "hello".data)] [kK]

/-- stBoundary: K holds "%\x7bV\x7d\x7bX\x7d" and V holds "ab%", so splicing V
forms the text "ab%\x7bX\x7d" whose marker sits at the splice boundary. -/
def stBoundary : RcState :=
  RcState.mk [(kK, "%\x7bV\x7d\x7bX\x7d".data), (['V'], "ab%".data), (['X'], ['1'])] [kK]

/-- ovLookup o k is the value an overlay list assigns to k, later entries
overriding earlier ones; none when the overlay does not define k. -/
def ovLookup : List (Str × Str) → Str → Option Str
  | [], _ => none
  | kv :: rest, k =>
    match ovLookup rest k with
    | some v => some v
    | none => if kv.1 = k then some kv.2 else none

/-- layered_value is the override order as the specification states it:
the compiled-in default, overridden by the system overlay if it defines
the key, then by the user overlay, then by an environment variable whose
name is exactly the key. -/
def layered_value (defaults0 sysfile userfile : List (Str × Str))
    (env : Str → Option Str) (k : Str) : Str :=
  let base := match ovLookup userfile k with
    | some v => v
    | none =>
      match ovLookup sysfile k with
      | some v => v
      | none => lookupC (defaults0.foldl (fun m d => setC m d.1 d.2) []) k
  match env k with
  | some e => e
  | none => base

end EixRc

namespace EixRc

/-! Helper lemmas: one-step characterisations of the resolver loops,
fuel monotonicity of the skip loop, and symbolic facts about the scanner. -/

theorem resolve_loop_notfound (fuel : Nat) (vp key : Str) (visited : List Str) (st : RcState)
    (pos a b : Nat)
    (h : find_next_delayed (lookupC st.config key) pos = (DelayedType.DelayedNotFound, a, b)) :
    resolve_loop (fuel + 1) vp key visited st pos =
      some (Except.ok { st with hasRef := st.hasRef.erase key }) := by
  simp only [resolve_loop, h]

theorem resolve_loop_fi (fuel : Nat) (vp key : Str) (visited : List Str) (st : RcState)
    (pos a b : Nat)
    (h : find_next_delayed (lookupC st.config key) pos = (DelayedType.DelayedFi, a, b)) :
    resolve_loop (fuel + 1) vp key visited st pos =
      some (Except.error ("FI without IF".data, key)) := by
  simp only [resolve_loop, h]

theorem resolve_loop_elsewo (fuel : Nat) (vp key : Str) (visited : List Str) (st : RcState)
    (pos a b : Nat)
    (h : find_next_delayed (lookupC st.config key) pos = (DelayedType.DelayedElse, a, b)) :
    resolve_loop (fuel + 1) vp key visited st pos =
      some (Except.error ("ELSE without IF".data, key)) := by
  simp only [resolve_loop, h]

theorem resolve_loop_var_selfref (fuel : Nat) (vp key : Str) (visited : List Str) (st : RcState)
    (pos p len : Nat)
    (h : find_next_delayed (lookupC st.config key) pos = (DelayedType.DelayedVariable, p, len))
    (hv : key ∈ visited) :
    resolve_loop (fuel + 1) vp key visited st pos =
      some (Except.error ("self-reference".data, key)) := by
  simp only [resolve_loop, h, if_pos hv]

theorem resolve_loop_var_fast (fuel : Nat) (vp key : Str) (visited : List Str) (st : RcState)
    (pos p len : Nat)
    (h : find_next_delayed (lookupC st.config key) pos = (DelayedType.DelayedVariable, p, len))
    (hnv : key ∉ visited)
    (ht : targetOf vp (lookupC st.config key) (p + 2) (len - 3) ∉ st.hasRef) :
    resolve_loop (fuel + 1) vp key visited st pos =
      resolve_loop fuel vp key visited
        (RcState.mk
          (setC st.config key (replaceRange (lookupC st.config key) p len
            (lookupC st.config (targetOf vp (lookupC st.config key) (p + 2) (len - 3)))))
          st.hasRef)
        (p + (lookupC st.config (targetOf vp (lookupC st.config key) (p + 2) (len - 3))).length) := by
  simp only [resolve_loop, h]
  simp [hnv, ht]

theorem resolve_loop_var_rec_err (fuel : Nat) (vp key : Str) (visited : List Str) (st : RcState)
    (pos p len : Nat) (e : RcError)
    (h : find_next_delayed (lookupC st.config key) pos = (DelayedType.DelayedVariable, p, len))
    (hnv : key ∉ visited)
    (ht : targetOf vp (lookupC st.config key) (p + 2) (len - 3) ∈ st.hasRef)
    (hrec : resolve_loop fuel vp (targetOf vp (lookupC st.config key) (p + 2) (len - 3))
      (key :: visited) st 0 = some (Except.error e)) :
    resolve_loop (fuel + 1) vp key visited st pos = some (Except.error e) := by
  simp only [resolve_loop, h]
  simp [hnv, ht, hrec]

theorem resolve_loop_var_rec_ok (fuel : Nat) (vp key : Str) (visited : List Str) (st st1 : RcState)
    (pos p len : Nat)
    (h : find_next_delayed (lookupC st.config key) pos = (DelayedType.DelayedVariable, p, len))
    (hnv : key ∉ visited)
    (ht : targetOf vp (lookupC st.config key) (p + 2) (len - 3) ∈ st.hasRef)
    (hrec : resolve_loop fuel vp (targetOf vp (lookupC st.config key) (p + 2) (len - 3))
      (key :: visited) st 0 = some (Except.ok st1)) :
    resolve_loop (fuel + 1) vp key visited st pos =
      resolve_loop fuel vp key visited
        (RcState.mk
          (setC st1.config key (replaceRange (lookupC st1.config key) p len
            (lookupC st1.config (targetOf vp (lookupC st.config key) (p + 2) (len - 3)))))
          st1.hasRef)
        (p + (lookupC st1.config (targetOf vp (lookupC st.config key) (p + 2) (len - 3))).length) := by
  simp only [resolve_loop, h]
  simp [hnv, ht, hrec]

theorem resolve_loop_cond_ok (fuel : Nat) (vp key : Str) (visited : List Str) (st : RcState)
    (pos p len : Nat) (ty : DelayedType) (r : Bool) (v2 : Str)
    (h : find_next_delayed (lookupC st.config key) pos = (ty, p, len))
    (hty : ty = DelayedType.DelayedIf ∨ ty = DelayedType.DelayedNotif)
    (hnv : key ∉ visited)
    (ht : targetOf vp (lookupC st.config key) (p + 3) (len - 4) ∉ st.hasRef)
    (hres : (if istrue (lookupC st.config (targetOf vp (lookupC st.config key) (p + 3) (len - 4)))
             then decide (ty = DelayedType.DelayedIf)
             else decide (ty = DelayedType.DelayedNotif)) = r)
    (hskip : (if r then skip_loop fuel key (eraseRange (lookupC st.config key) p len) p r false none 0
              else skip_loop fuel key (lookupC st.config key) (p + len) r false (some p) 0)
             = some (Except.ok v2)) :
    resolve_loop (fuel + 1) vp key visited st pos =
      resolve_loop fuel vp key visited (RcState.mk (setC st.config key v2) st.hasRef) p := by
  rcases hty with hty | hty <;> subst hty <;> simp only [resolve_loop, h] <;>
    simp only [hres] at * <;> simp [hnv, ht, hres, hskip] <;> cases r <;> simp_all

theorem resolve_loop_cond_err (fuel : Nat) (vp key : Str) (visited : List Str) (st : RcState)
    (pos p len : Nat) (ty : DelayedType) (r : Bool) (e : RcError)
    (h : find_next_delayed (lookupC st.config key) pos = (ty, p, len))
    (hty : ty = DelayedType.DelayedIf ∨ ty = DelayedType.DelayedNotif)
    (hnv : key ∉ visited)
    (ht : targetOf vp (lookupC st.config key) (p + 3) (len - 4) ∉ st.hasRef)
    (hres : (if istrue (lookupC st.config (targetOf vp (lookupC st.config key) (p + 3) (len - 4)))
             then decide (ty = DelayedType.DelayedIf)
             else decide (ty = DelayedType.DelayedNotif)) = r)
    (hskip : (if r then skip_loop fuel key (eraseRange (lookupC st.config key) p len) p r false none 0
              else skip_loop fuel key (lookupC st.config key) (p + len) r false (some p) 0)
             = some (Except.error e)) :
    resolve_loop (fuel + 1) vp key visited st pos = some (Except.error e) := by
  rcases hty with hty | hty <;> subst hty <;> simp only [resolve_loop, h] <;>
    simp only [hres] at * <;> simp [hnv, ht, hres, hskip] <;> cases r <;> simp_all

theorem skip_loop_add (m : Nat) : ∀ (c : Nat) (key value : Str) (skippos : Nat)
    (r g : Bool) (d : Option Nat) (cnt : Nat) (res : Except RcError Str),
    skip_loop c key value skippos r g d cnt = some res →
    skip_loop (m + c) key value skippos r g d cnt = some res := by
  intro c
  induction c with
  | zero => intro key value skippos r g d cnt res h; simp [skip_loop] at h
  | succ c ih =>
    intro key value skippos r g d cnt res h
    rw [show m + (c + 1) = (m + c) + 1 from rfl]
    rw [skip_loop] at h ⊢
    rcases hfind : find_next_delayed value skippos with ⟨ty, p, len⟩
    rw [hfind] at h
    cases ty with
    | DelayedNotFound => exact h
    | DelayedFi =>
      dsimp only [] at h ⊢
      by_cases hc : cnt ≠ 0
      · rw [if_pos hc] at h ⊢; exact ih _ _ _ _ _ _ _ _ h
      · rw [if_neg hc] at h ⊢; exact h
    | DelayedElse =>
      dsimp only [] at h ⊢
      by_cases hc : cnt ≠ 0
      · rw [if_pos hc] at h ⊢; exact ih _ _ _ _ _ _ _ _ h
      · rw [if_neg hc] at h ⊢
        by_cases hg : g = true
        · rw [if_pos hg] at h ⊢; exact h
        · rw [if_neg hg] at h ⊢
          by_cases hr : r = true
          · rw [if_pos hr] at h ⊢; exact ih _ _ _ _ _ _ _ _ h
          · rw [if_neg hr] at h ⊢
            cases d with
            | none => exact h
            | some dd => exact ih _ _ _ _ _ _ _ _ h
    | DelayedIf => exact ih _ _ _ _ _ _ _ _ h
    | DelayedNotif => exact ih _ _ _ _ _ _ _ _ h
    | DelayedVariable => exact ih _ _ _ _ _ _ _ _ h

theorem charAt_append_len (pre : Str) (d : Char) (rest : Str) :
    charAt (pre ++ d :: rest) pre.length = d := by
  induction pre with
  | nil => rfl
  | cons a as ih => simpa [charAt, List.getD] using ih

theorem nameSpan_append (cs : Str) (d : Char) (rest : Str)
    (h : ∀ x ∈ cs, isNameCharB x = true) (hd : isNameCharB d = false) :
    nameSpan (cs ++ d :: rest) = cs.length := by
  induction cs with
  | nil => simp [nameSpan, hd]
  | cons a as ih =>
    have ha : isNameCharB a = true := h a (List.mem_cons_self a as)
    have := ih (fun x hx => h x (List.mem_cons_of_mem a hx))
    simp [nameSpan, ha, this]

theorem firstNameChar_notin (c : Char) (hc : isFirstNameCharB c = true) :
    c ≠ '\x7d' ∧ c ≠ '?' ∧ c ≠ '!' := by
  refine ⟨fun h => ?_, fun h => ?_, fun h => ?_⟩ <;> subst h <;> exact absurd hc (by decide)

theorem take_left_append (l1 l2 : Str) : (l1 ++ l2).take l1.length = l1 := by
  induction l1 with
  | nil => rfl
  | cons a as ih => simp [ih]

theorem scan_var_cand (c : Char) (cs rest : Str)
    (hc : isFirstNameCharB c = true)
    (hcs : ∀ x ∈ cs, isNameCharB x = true)
    (hne : lowerStr (c :: cs) ≠ "else".data) :
    findNextCand ('%' :: '\x7b' :: c :: (cs ++ ('\x7d' :: rest))) 0 =
      CandResult.done (DelayedType.DelayedVariable, 0, cs.length + 4) := by
  obtain ⟨h1, h2, h3⟩ := firstNameChar_notin c hc
  have hca : charAt ('%' :: '\x7b' :: c :: (cs ++ ('\x7d' :: rest))) 2 = c := rfl
  rw [findNextCand]
  rw [show strFind ('%' :: '\x7b' :: c :: (cs ++ ('\x7d' :: rest))) ('%' :: ['\x7b']) 0
      = some 0 from rfl]
  dsimp only []
  rw [hca]
  simp only [Nat.lt_irrefl, false_and, if_false, if_neg h1, if_neg h2, if_neg h3, reduceIte]
  rw [hca, if_neg (by simp [hc])]
  rw [show ('%' :: '\x7b' :: c :: (cs ++ ('\x7d' :: rest))).drop 3 = cs ++ ('\x7d' :: rest) from rfl]
  rw [nameSpan_append cs '\x7d' rest hcs (by decide)]
  have hlen : 2 + 1 + cs.length = ('%' :: '\x7b' :: c :: cs).length := by
    simp [List.length_cons]; omega
  have hj : charAt ('%' :: '\x7b' :: c :: (cs ++ ('\x7d' :: rest))) (2 + 1 + cs.length) = '\x7d' := by
    rw [hlen, show ('%' :: '\x7b' :: c :: (cs ++ ('\x7d' :: rest)))
        = ('%' :: '\x7b' :: c :: cs) ++ ('\x7d' :: rest) by simp]
    exact charAt_append_len _ _ _
  rw [if_neg (by simp [hj])]
  have hsub : substr ('%' :: '\x7b' :: c :: (cs ++ ('\x7d' :: rest))) 2 (2 + 1 + cs.length - 2)
      = c :: cs := by
    have h4 : (2 + 1 + cs.length - 2) = (c :: cs).length := by simp [List.length_cons]; omega
    rw [h4, substr]
    rw [show ('%' :: '\x7b' :: c :: (cs ++ ('\x7d' :: rest))).drop 2
        = (c :: cs) ++ ('\x7d' :: rest) by simp]
    exact take_left_append _ _
  rw [hsub, if_neg hne]
  have h5 : 2 + 1 + cs.length + 1 - 0 = cs.length + 4 := by omega
  rw [h5]

theorem scan_var (c : Char) (cs rest : Str)
    (hc : isFirstNameCharB c = true)
    (hcs : ∀ x ∈ cs, isNameCharB x = true)
    (hne : lowerStr (c :: cs) ≠ "else".data) :
    find_next_delayed ('%' :: '\x7b' :: c :: (cs ++ ('\x7d' :: rest))) 0 =
      (DelayedType.DelayedVariable, 0, cs.length + 4) := by
  rw [find_next_delayed]
  rw [show ('%' :: '\x7b' :: c :: (cs ++ ('\x7d' :: rest))).length + 2
      = (('%' :: '\x7b' :: c :: (cs ++ ('\x7d' :: rest))).length + 1) + 1 from rfl]
  rw [findNextAux]
  rw [scan_var_cand c cs rest hc hcs hne]

/-- lookupC on a matching head entry. -/
theorem lookupC_cons_eq (k v : Str) (rest : List (Str × Str)) :
    lookupC ((k, v) :: rest) k = v := by
  simp [lookupC, lookupO]

/-- lookupC skips a non-matching head entry. -/
theorem lookupC_cons_ne (k1 v1 k : Str) (rest : List (Str × Str)) (h : k1 ≠ k) :
    lookupC ((k1, v1) :: rest) k = lookupC rest k := by
  simp [lookupC, lookupO, h]

/-- The scanner reports DelayedNotFound at or beyond the end of the string. -/
theorem find_next_delayed_at_end (s : Str) (pos : Nat) (h : s.length ≤ pos) :
    find_next_delayed s pos = (DelayedType.DelayedNotFound, s.length + 1, 0) := by
  rw [find_next_delayed]
  rw [show s.length + 2 = (s.length + 1) + 1 from rfl]
  rw [findNextAux, findNextCand]
  rw [show strFind s ('%' :: ['\x7b']) pos = none from ?_]
  have hd : s.drop pos = [] := List.drop_eq_nil_of_le h
  rw [strFind, hd]
  rfl

/-- The referenced-name computation on a dq value whose name does not
start with `*` extracts the name itself. -/
theorem targetOf_dq (vp : Str) (b : Char) (bs : Str) (hb : b ≠ '*') :
    targetOf vp (dq (b :: bs)) 2 (bs.length + 4 - 3) = b :: bs := by
  have hca : charAt (dq (b :: bs)) 2 = b := rfl
  rw [targetOf, hca, if_neg hb]
  rw [show bs.length + 4 - 3 = (b :: bs).length by simp [List.length_cons]]
  rw [substr, show (dq (b :: bs)).drop 2 = (b :: bs) ++ ['\x7d'] by simp [dq]]
  exact take_left_append _ _

end EixRc

namespace EixRc

theorem cycle_err (n : Nat) (vp : Str) (a : Char) (as : Str) (b : Char) (bs : Str)
    (st : RcState)
    (hfa : isFirstNameCharB a = true) (hsa : a ≠ '*')
    (has : ∀ x ∈ as, isNameCharB x = true) (hea : lowerStr (a :: as) ≠ "else".data)
    (hfb : isFirstNameCharB b = true) (hsb : b ≠ '*')
    (hbs : ∀ x ∈ bs, isNameCharB x = true) (heb : lowerStr (b :: bs) ≠ "else".data)
    (hAB : (a :: as : Str) ≠ (b :: bs : Str))
    (hlA : lookupC st.config (a :: as) = dq (b :: bs))
    (hlB : lookupC st.config (b :: bs) = dq (a :: as))
    (hmA : (a :: as : Str) ∈ st.hasRef) (hmB : (b :: bs : Str) ∈ st.hasRef) :
    resolve_loop (n + 3) vp (a :: as) [] st 0 =
      some (Except.error ("self-reference".data, a :: as)) := by
  have hscanA : find_next_delayed (lookupC st.config (a :: as)) 0 =
      (DelayedType.DelayedVariable, 0, bs.length + 4) := by
    rw [hlA]; exact scan_var b bs [] hfb hbs heb
  have hscanB : find_next_delayed (lookupC st.config (b :: bs)) 0 =
      (DelayedType.DelayedVariable, 0, as.length + 4) := by
    rw [hlB]; exact scan_var a as [] hfa has hea
  have htgtA : targetOf vp (lookupC st.config (a :: as)) (0 + 2) (bs.length + 4 - 3) = b :: bs := by
    rw [hlA]; exact targetOf_dq vp b bs hsb
  have htgtB : targetOf vp (lookupC st.config (b :: bs)) (0 + 2) (as.length + 4 - 3) = a :: as := by
    rw [hlB]; exact targetOf_dq vp a as hsa
  have e3 : resolve_loop (n + 1) vp (a :: as) ((b :: bs) :: (a :: as) :: []) st 0 =
      some (Except.error ("self-reference".data, a :: as)) :=
    resolve_loop_var_selfref n vp (a :: as) _ st 0 0 (bs.length + 4) hscanA (by simp)
  have e2 : resolve_loop (n + 2) vp (b :: bs) ((a :: as) :: []) st 0 =
      some (Except.error ("self-reference".data, a :: as)) := by
    refine resolve_loop_var_rec_err (n + 1) vp (b :: bs) _ st 0 0 (as.length + 4) _
      hscanB ?_ ?_ ?_
    · simp [hAB.symm]
    · rw [htgtB]; exact hmA
    · rw [htgtB]; exact e3
  refine resolve_loop_var_rec_err (n + 2) vp (a :: as) [] st 0 0 (bs.length + 4) _
    hscanA (by simp) ?_ ?_
  · rw [htgtA]; exact hmB
  · rw [htgtA]; exact e2

/-! Claim theorems. -/

/-- C2: for every pair of distinct well-formed key names A and B with A
defined as "%\x7bB\x7d" and B as "%\x7bA\x7d", resolve_delayed_recurse terminates
for every sufficient fuel and fails with the self-reference error naming
the key it started from, for both keys; the embedding passes
key :: visited into the recursive call and keeps visited afterwards,
which is the source's insert-before/erase-after discipline on the active
recursion path. -/
theorem c2_cycle_self_reference (a : Char) (as : Str) (b : Char) (bs : Str) (vp : Str)
    (hfa : isFirstNameCharB a = true) (hsa : a ≠ '*')
    (has : ∀ x ∈ as, isNameCharB x = true) (hea : lowerStr (a :: as) ≠ "else".data)
    (hfb : isFirstNameCharB b = true) (hsb : b ≠ '*')
    (hbs : ∀ x ∈ bs, isNameCharB x = true) (heb : lowerStr (b :: bs) ≠ "else".data)
    (hAB : (a :: as : Str) ≠ (b :: bs : Str)) :
    ∀ n : Nat,
      resolve_delayed_recurse (n + 3) vp (a :: as) [] (cycleState (a :: as) (b :: bs)) =
        some (Except.error ("self-reference".data, a :: as)) ∧
      resolve_delayed_recurse (n + 3) vp (b :: bs) [] (cycleState (a :: as) (b :: bs)) =
        some (Except.error ("self-reference".data, b :: bs)) := by
  intro n
  have hlA : lookupC (cycleState (a :: as) (b :: bs)).config (a :: as) = dq (b :: bs) :=
    lookupC_cons_eq _ _ _
  have hlB : lookupC (cycleState (a :: as) (b :: bs)).config (b :: bs) = dq (a :: as) := by
    rw [show (cycleState (a :: as) (b :: bs)).config
        = ((a :: as, dq (b :: bs)) :: [(b :: bs, dq (a :: as))]) from rfl]
    rw [lookupC_cons_ne _ _ _ _ hAB]
    exact lookupC_cons_eq _ _ _
  have hmA : (a :: as : Str) ∈ (cycleState (a :: as) (b :: bs)).hasRef := by
    simp [cycleState]
  have hmB : (b :: bs : Str) ∈ (cycleState (a :: as) (b :: bs)).hasRef := by
    simp [cycleState]
  constructor
  · rw [resolve_delayed_recurse, if_pos hmA]
    exact cycle_err n vp a as b bs _ hfa hsa has hea hfb hsb hbs heb hAB hlA hlB hmA hmB
  · rw [resolve_delayed_recurse, if_pos hmB]
    exact cycle_err n vp b bs a as _ hfb hsb hbs heb hfa hsa has hea hAB.symm hlB hlA hmB hmA

/-- Witness for C2 at keys "A" and "B". -/
theorem c2_cycle_self_reference_witness :
    resolve_delayed_recurse 3 [] ['A'] [] (cycleState ['A'] ['B']) =
      some (Except.error ("self-reference".data, ['A'])) ∧
    resolve_delayed_recurse 3 [] ['B'] [] (cycleState ['A'] ['B']) =
      some (Except.error ("self-reference".data, ['B'])) :=
  c2_cycle_self_reference 'A' [] 'B' [] [] (by decide) (by decide) (by decide) (by decide)
    (by decide) (by decide) (by decide) (by decide) (by decide) 0

end EixRc

namespace EixRc

theorem c1aux_notif_false (n : Nat) (vX : Str) (h : istrue vX = false) :
    resolvedValue (resolve_delayed_recurse (n + 3) [] kK [] (stNotifElse vX)) kK = some ['A'] := by
  have e1 : resolve_delayed_recurse (n + 3) [] kK [] (stNotifElse vX)
      = resolve_loop (n + 3) [] kK [] (stNotifElse vX) 0 := by
    rw [resolve_delayed_recurse, if_pos (by simp [stNotifElse])]
  have hres : (if istrue (lookupC (stNotifElse vX).config
        (targetOf [] (lookupC (stNotifElse vX).config kK) (0 + 3) (5 - 4)))
      then decide (DelayedType.DelayedNotif = DelayedType.DelayedIf)
      else decide (DelayedType.DelayedNotif = DelayedType.DelayedNotif)) = true := by
    rw [show lookupC (stNotifElse vX).config
        (targetOf [] (lookupC (stNotifElse vX).config kK) (0 + 3) (5 - 4)) = vX from rfl]
    rw [h]; simp
  have hskip : (if true then skip_loop (n + 2) kK
        (eraseRange (lookupC (stNotifElse vX).config kK) 0 5) 0 true false none 0
      else skip_loop (n + 2) kK (lookupC (stNotifElse vX).config kK) (0 + 5) true false (some 0) 0)
      = some (Except.ok ['A']) := by
    rw [if_pos rfl]
    exact skip_loop_add n 2 kK ("A%\x7belse\x7dB%\x7b\x7d".data) 0 true false none 0
      (Except.ok ['A']) (by decide)
  have e2 := resolve_loop_cond_ok (n + 2) [] kK [] (stNotifElse vX) 0 0 5
    DelayedType.DelayedNotif true ['A'] (by rfl) (Or.inr rfl) (by decide)
    (show (['X'] : Str) ∉ ([kK] : List Str) by decide) hres hskip
  have e3 := resolve_loop_notfound (n + 1) [] kK []
    (RcState.mk (setC (stNotifElse vX).config kK ['A']) (stNotifElse vX).hasRef) 0 2 0 (by rfl)
  rw [e1, e2, e3]; rfl

theorem c1aux_notif_true (n : Nat) (vX : Str) (h : istrue vX = true) :
    resolvedValue (resolve_delayed_recurse (n + 3) [] kK [] (stNotifElse vX)) kK = some ['B'] := by
  have e1 : resolve_delayed_recurse (n + 3) [] kK [] (stNotifElse vX)
      = resolve_loop (n + 3) [] kK [] (stNotifElse vX) 0 := by
    rw [resolve_delayed_recurse, if_pos (by simp [stNotifElse])]
  have hres : (if istrue (lookupC (stNotifElse vX).config
        (targetOf [] (lookupC (stNotifElse vX).config kK) (0 + 3) (5 - 4)))
      then decide (DelayedType.DelayedNotif = DelayedType.DelayedIf)
      else decide (DelayedType.DelayedNotif = DelayedType.DelayedNotif)) = false := by
    rw [show lookupC (stNotifElse vX).config
        (targetOf [] (lookupC (stNotifElse vX).config kK) (0 + 3) (5 - 4)) = vX from rfl]
    rw [h]; simp
  have hskip : (if false then skip_loop (n + 2) kK
        (eraseRange (lookupC (stNotifElse vX).config kK) 0 5) 0 false false none 0
      else skip_loop (n + 2) kK (lookupC (stNotifElse vX).config kK) (0 + 5) false false (some 0) 0)
      = some (Except.ok ['B']) := by
    rw [if_neg (by simp)]
    exact skip_loop_add n 2 kK vNotifElse 5 false false (some 0) 0 (Except.ok ['B']) (by decide)
  have e2 := resolve_loop_cond_ok (n + 2) [] kK [] (stNotifElse vX) 0 0 5
    DelayedType.DelayedNotif false ['B'] (by rfl) (Or.inr rfl) (by decide)
    (show (['X'] : Str) ∉ ([kK] : List Str) by decide) hres hskip
  have e3 := resolve_loop_notfound (n + 1) [] kK []
    (RcState.mk (setC (stNotifElse vX).config kK ['B']) (stNotifElse vX).hasRef) 0 2 0 (by rfl)
  rw [e1, e2, e3]; rfl

theorem c1aux_if_true (n : Nat) (vX : Str) (h : istrue vX = true) :
    resolvedValue (resolve_delayed_recurse (n + 3) [] kK [] (stIfElse vX)) kK = some ['A'] := by
  have e1 : resolve_delayed_recurse (n + 3) [] kK [] (stIfElse vX)
      = resolve_loop (n + 3) [] kK [] (stIfElse vX) 0 := by
    rw [resolve_delayed_recurse, if_pos (by simp [stIfElse])]
  have hres : (if istrue (lookupC (stIfElse vX).config
        (targetOf [] (lookupC (stIfElse vX).config kK) (0 + 3) (5 - 4)))
      then decide (DelayedType.DelayedIf = DelayedType.DelayedIf)
      else decide (DelayedType.DelayedIf = DelayedType.DelayedNotif)) = true := by
    rw [show lookupC (stIfElse vX).config
        (targetOf [] (lookupC (stIfElse vX).config kK) (0 + 3) (5 - 4)) = vX from rfl]
    rw [h]; simp
  have hskip : (if true then skip_loop (n + 2) kK
        (eraseRange (lookupC (stIfElse vX).config kK) 0 5) 0 true false none 0
      else skip_loop (n + 2) kK (lookupC (stIfElse vX).config kK) (0 + 5) true false (some 0) 0)
      = some (Except.ok ['A']) := by
    rw [if_pos rfl]
    exact skip_loop_add n 2 kK ("A%\x7belse\x7dB%\x7b\x7d".data) 0 true false none 0
      (Except.ok ['A']) (by decide)
  have e2 := resolve_loop_cond_ok (n + 2) [] kK [] (stIfElse vX) 0 0 5
    DelayedType.DelayedIf true ['A'] (by rfl) (Or.inl rfl) (by decide)
    (show (['X'] : Str) ∉ ([kK] : List Str) by decide) hres hskip
  have e3 := resolve_loop_notfound (n + 1) [] kK []
    (RcState.mk (setC (stIfElse vX).config kK ['A']) (stIfElse vX).hasRef) 0 2 0 (by rfl)
  rw [e1, e2, e3]; rfl

theorem c1aux_if_false (n : Nat) (vX : Str) (h : istrue vX = false) :
    resolvedValue (resolve_delayed_recurse (n + 3) [] kK [] (stIfElse vX)) kK = some ['B'] := by
  have e1 : resolve_delayed_recurse (n + 3) [] kK [] (stIfElse vX)
      = resolve_loop (n + 3) [] kK [] (stIfElse vX) 0 := by
    rw [resolve_delayed_recurse, if_pos (by simp [stIfElse])]
  have hres : (if istrue (lookupC (stIfElse vX).config
        (targetOf [] (lookupC (stIfElse vX).config kK) (0 + 3) (5 - 4)))
      then decide (DelayedType.DelayedIf = DelayedType.DelayedIf)
      else decide (DelayedType.DelayedIf = DelayedType.DelayedNotif)) = false := by
    rw [show lookupC (stIfElse vX).config
        (targetOf [] (lookupC (stIfElse vX).config kK) (0 + 3) (5 - 4)) = vX from rfl]
    rw [h]; simp
  have hskip : (if false then skip_loop (n + 2) kK
        (eraseRange (lookupC (stIfElse vX).config kK) 0 5) 0 false false none 0
      else skip_loop (n + 2) kK (lookupC (stIfElse vX).config kK) (0 + 5) false false (some 0) 0)
      = some (Except.ok ['B']) := by
    rw [if_neg (by simp)]
    exact skip_loop_add n 2 kK vIfElse 5 false false (some 0) 0 (Except.ok ['B']) (by decide)
  have e2 := resolve_loop_cond_ok (n + 2) [] kK [] (stIfElse vX) 0 0 5
    DelayedType.DelayedIf false ['B'] (by rfl) (Or.inl rfl) (by decide)
    (show (['X'] : Str) ∉ ([kK] : List Str) by decide) hres hskip
  have e3 := resolve_loop_notfound (n + 1) [] kK []
    (RcState.mk (setC (stIfElse vX).config kK ['B']) (stIfElse vX).hasRef) 0 2 0 (by rfl)
  rw [e1, e2, e3]; rfl

theorem c1aux_ifne_true (n : Nat) (vX : Str) (h : istrue vX = true) :
    resolvedValue (resolve_delayed_recurse (n + 3) [] kK [] (stIfNoElse vX)) kK = some ['A'] := by
  have e1 : resolve_delayed_recurse (n + 3) [] kK [] (stIfNoElse vX)
      = resolve_loop (n + 3) [] kK [] (stIfNoElse vX) 0 := by
    rw [resolve_delayed_recurse, if_pos (by simp [stIfNoElse])]
  have hres : (if istrue (lookupC (stIfNoElse vX).config
        (targetOf [] (lookupC (stIfNoElse vX).config kK) (0 + 3) (5 - 4)))
      then decide (DelayedType.DelayedIf = DelayedType.DelayedIf)
      else decide (DelayedType.DelayedIf = DelayedType.DelayedNotif)) = true := by
    rw [show lookupC (stIfNoElse vX).config
        (targetOf [] (lookupC (stIfNoElse vX).config kK) (0 + 3) (5 - 4)) = vX from rfl]
    rw [h]; simp
  have hskip : (if true then skip_loop (n + 2) kK
        (eraseRange (lookupC (stIfNoElse vX).config kK) 0 5) 0 true false none 0
      else skip_loop (n + 2) kK (lookupC (stIfNoElse vX).config kK) (0 + 5) true false (some 0) 0)
      = some (Except.ok ['A']) := by
    rw [if_pos rfl]
    exact skip_loop_add (n + 1) 1 kK ("A%\x7b\x7d".data) 0 true false none 0
      (Except.ok ['A']) (by decide)
  have e2 := resolve_loop_cond_ok (n + 2) [] kK [] (stIfNoElse vX) 0 0 5
    DelayedType.DelayedIf true ['A'] (by rfl) (Or.inl rfl) (by decide)
    (show (['X'] : Str) ∉ ([kK] : List Str) by decide) hres hskip
  have e3 := resolve_loop_notfound (n + 1) [] kK []
    (RcState.mk (setC (stIfNoElse vX).config kK ['A']) (stIfNoElse vX).hasRef) 0 2 0 (by rfl)
  rw [e1, e2, e3]; rfl

theorem c1aux_ifne_false (n : Nat) (vX : Str) (h : istrue vX = false) :
    resolvedValue (resolve_delayed_recurse (n + 3) [] kK [] (stIfNoElse vX)) kK = some [] := by
  have e1 : resolve_delayed_recurse (n + 3) [] kK [] (stIfNoElse vX)
      = resolve_loop (n + 3) [] kK [] (stIfNoElse vX) 0 := by
    rw [resolve_delayed_recurse, if_pos (by simp [stIfNoElse])]
  have hres : (if istrue (lookupC (stIfNoElse vX).config
        (targetOf [] (lookupC (stIfNoElse vX).config kK) (0 + 3) (5 - 4)))
      then decide (DelayedType.DelayedIf = DelayedType.DelayedIf)
      else decide (DelayedType.DelayedIf = DelayedType.DelayedNotif)) = false := by
    rw [show lookupC (stIfNoElse vX).config
        (targetOf [] (lookupC (stIfNoElse vX).config kK) (0 + 3) (5 - 4)) = vX from rfl]
    rw [h]; simp
  have hskip : (if false then skip_loop (n + 2) kK
        (eraseRange (lookupC (stIfNoElse vX).config kK) 0 5) 0 false false none 0
      else skip_loop (n + 2) kK (lookupC (stIfNoElse vX).config kK) (0 + 5) false false (some 0) 0)
      = some (Except.ok []) := by
    rw [if_neg (by simp)]
    exact skip_loop_add (n + 1) 1 kK vIfNoElse 5 false false (some 0) 0 (Except.ok []) (by decide)
  have e2 := resolve_loop_cond_ok (n + 2) [] kK [] (stIfNoElse vX) 0 0 5
    DelayedType.DelayedIf false [] (by rfl) (Or.inl rfl) (by decide)
    (show (['X'] : Str) ∉ ([kK] : List Str) by decide) hres hskip
  have e3 := resolve_loop_notfound (n + 1) [] kK []
    (RcState.mk (setC (stIfNoElse vX).config kK []) (stIfNoElse vX).hasRef) 0 1 0 (by rfl)
  rw [e1, e2, e3]; rfl

/-- C1: istrue accepts exactly the five truthy words case-insensitively,
and a conditional keeps its branch exactly when (If and true) or (Notif
and false), taking the else text otherwise when present and nothing when
not: "%\x7b!X\x7dA%\x7belse\x7dB%\x7b\x7d" resolves to "A" when X's resolved value
is falsy and to "B" when it is truthy, "%\x7b?X\x7dA%\x7belse\x7dB%\x7b\x7d" the other
way round, and "%\x7b?X\x7dA%\x7b\x7d" resolves to "A" or to the empty string. -/
theorem c1_conditional_semantics :
    (∀ s : Str, istrue s = true ↔
      (lowerStr s = "true".data ∨ lowerStr s = "1".data ∨ lowerStr s = "yes".data ∨
        lowerStr s = "y".data ∨ lowerStr s = "on".data)) ∧
    (∀ (n : Nat) (vX : Str), istrue vX = false →
      resolvedValue (resolve_delayed_recurse (n + 3) [] kK [] (stNotifElse vX)) kK = some ['A']) ∧
    (∀ (n : Nat) (vX : Str), istrue vX = true →
      resolvedValue (resolve_delayed_recurse (n + 3) [] kK [] (stNotifElse vX)) kK = some ['B']) ∧
    (∀ (n : Nat) (vX : Str), istrue vX = true →
      resolvedValue (resolve_delayed_recurse (n + 3) [] kK [] (stIfElse vX)) kK = some ['A']) ∧
    (∀ (n : Nat) (vX : Str), istrue vX = false →
      resolvedValue (resolve_delayed_recurse (n + 3) [] kK [] (stIfElse vX)) kK = some ['B']) ∧
    (∀ (n : Nat) (vX : Str), istrue vX = true →
      resolvedValue (resolve_delayed_recurse (n + 3) [] kK [] (stIfNoElse vX)) kK = some ['A']) ∧
    (∀ (n : Nat) (vX : Str), istrue vX = false →
      resolvedValue (resolve_delayed_recurse (n + 3) [] kK [] (stIfNoElse vX)) kK = some []) := by
  refine ⟨fun s => ?_, c1aux_notif_false, c1aux_notif_true, c1aux_if_true, c1aux_if_false,
    c1aux_ifne_true, c1aux_ifne_false⟩
  simp [istrue, Bool.or_eq_true, beq_iff_eq, or_assoc]

/-- Witness for C1 at concrete values "0" (falsy) and "yes" (truthy). -/
theorem c1_conditional_semantics_witness :
    istrue "yes".data = true ∧
    resolvedValue (resolve_delayed_recurse 3 [] kK [] (stNotifElse ['0'])) kK = some ['A'] ∧
    resolvedValue (resolve_delayed_recurse 3 [] kK [] (stNotifElse "yes".data)) kK = some ['B'] ∧
    resolvedValue (resolve_delayed_recurse 3 [] kK [] (stIfElse "yes".data)) kK = some ['A'] ∧
    resolvedValue (resolve_delayed_recurse 3 [] kK [] (stIfElse ['0'])) kK = some ['B'] ∧
    resolvedValue (resolve_delayed_recurse 3 [] kK [] (stIfNoElse "on".data)) kK = some ['A'] ∧
    resolvedValue (resolve_delayed_recurse 3 [] kK [] (stIfNoElse ['0'])) kK = some [] :=
  ⟨(c1_conditional_semantics.1 "yes".data).mpr (Or.inr (Or.inr (Or.inl (by decide)))),
   c1_conditional_semantics.2.1 0 ['0'] (by decide),
   c1_conditional_semantics.2.2.1 0 "yes".data (by decide),
   c1_conditional_semantics.2.2.2.1 0 "yes".data (by decide),
   c1_conditional_semantics.2.2.2.2.1 0 ['0'] (by decide),
   c1_conditional_semantics.2.2.2.2.2.1 0 "on".data (by decide),
   c1_conditional_semantics.2.2.2.2.2.2 0 ['0'] (by decide)⟩

end EixRc

namespace EixRc

/-- C3: for every value of X whose resolved text is truthy and every value
of Y whose resolved text is falsy, "%\x7b?X\x7d%\x7b?Y\x7dA%\x7b\x7d%\x7b\x7d" resolves to
the empty string: the nesting counter of the skip loop prevents the inner
conditional's Fi from closing the outer one. -/
theorem c3_nested_conditionals (n : Nat) (vX vY : Str)
    (hx : istrue vX = true) (hy : istrue vY = false) :
    resolvedValue (resolve_delayed_recurse (n + 4) [] kK [] (stNested vX vY)) kK = some [] := by
  have e1 : resolve_delayed_recurse (n + 4) [] kK [] (stNested vX vY)
      = resolve_loop (n + 4) [] kK [] (stNested vX vY) 0 := by
    rw [resolve_delayed_recurse, if_pos (by simp [stNested])]
  have hres1 : (if istrue (lookupC (stNested vX vY).config
        (targetOf [] (lookupC (stNested vX vY).config kK) (0 + 3) (5 - 4)))
      then decide (DelayedType.DelayedIf = DelayedType.DelayedIf)
      else decide (DelayedType.DelayedIf = DelayedType.DelayedNotif)) = true := by
    rw [show lookupC (stNested vX vY).config
        (targetOf [] (lookupC (stNested vX vY).config kK) (0 + 3) (5 - 4)) = vX from rfl]
    rw [hx]; simp
  have hskip1 : (if true then skip_loop (n + 3) kK
        (eraseRange (lookupC (stNested vX vY).config kK) 0 5) 0 true false none 0
      else skip_loop (n + 3) kK (lookupC (stNested vX vY).config kK) (0 + 5) true false (some 0) 0)
      = some (Except.ok ("%\x7b?Y\x7dA%\x7b\x7d".data)) := by
    rw [if_pos rfl]
    exact skip_loop_add n 3 kK ("%\x7b?Y\x7dA%\x7b\x7d%\x7b\x7d".data) 0 true false none 0
      (Except.ok ("%\x7b?Y\x7dA%\x7b\x7d".data)) (by decide)
  have e2 := resolve_loop_cond_ok (n + 3) [] kK [] (stNested vX vY) 0 0 5
    DelayedType.DelayedIf true ("%\x7b?Y\x7dA%\x7b\x7d".data) (by rfl) (Or.inl rfl) (by decide)
    (show (['X'] : Str) ∉ ([kK] : List Str) by decide) hres1 hskip1
  set st1 : RcState := RcState.mk
    (setC (stNested vX vY).config kK ("%\x7b?Y\x7dA%\x7b\x7d".data)) (stNested vX vY).hasRef with hst1
  have hres2 : (if istrue (lookupC st1.config
        (targetOf [] (lookupC st1.config kK) (0 + 3) (5 - 4)))
      then decide (DelayedType.DelayedIf = DelayedType.DelayedIf)
      else decide (DelayedType.DelayedIf = DelayedType.DelayedNotif)) = false := by
    rw [show lookupC st1.config
        (targetOf [] (lookupC st1.config kK) (0 + 3) (5 - 4)) = vY from rfl]
    rw [hy]; simp
  have hskip2 : (if false then skip_loop (n + 2) kK
        (eraseRange (lookupC st1.config kK) 0 5) 0 false false none 0
      else skip_loop (n + 2) kK (lookupC st1.config kK) (0 + 5) false false (some 0) 0)
      = some (Except.ok []) := by
    rw [if_neg (by simp)]
    exact skip_loop_add (n + 1) 1 kK ("%\x7b?Y\x7dA%\x7b\x7d".data) 5 false false (some 0) 0
      (Except.ok []) (by decide)
  have e3 := resolve_loop_cond_ok (n + 2) [] kK [] st1 0 0 5
    DelayedType.DelayedIf false [] (by rfl) (Or.inl rfl) (by decide)
    (show (['Y'] : Str) ∉ ([kK] : List Str) by decide) hres2 hskip2
  have e4 := resolve_loop_notfound (n + 1) [] kK []
    (RcState.mk (setC st1.config kK []) st1.hasRef) 0 1 0 (by rfl)
  rw [e1, e2, e3, e4]; rfl

/-- Witness for C3 at "1" and "0". -/
theorem c3_nested_conditionals_witness :
    resolvedValue (resolve_delayed_recurse 4 [] kK [] (stNested ['1'] ['0'])) kK = some [] :=
  c3_nested_conditionals 0 ['1'] ['0'] (by decide) (by decide)

end EixRc

namespace EixRc

/-- C8: for every prefix string vp and every value v of the key
vp ++ "bar", the directive "%\x7b*bar\x7d" resolves the key named by the
prefix concatenated with the literal remainder after the star, splicing
v; with vp = "foo_" the key "foo_bar" is resolved. -/
theorem c8_star_indirection (n : Nat) (vp v : Str) (hne : vp ++ "bar".data ≠ kK) :
    resolvedValue (resolve_delayed_recurse (n + 2) vp kK [] (stStar vp v)) kK = some v := by
  have e1 : resolve_delayed_recurse (n + 2) vp kK [] (stStar vp v)
      = resolve_loop (n + 2) vp kK [] (stStar vp v) 0 := by
    rw [resolve_delayed_recurse, if_pos (by simp [stStar])]
  have htgt : targetOf vp (lookupC (stStar vp v).config kK) (0 + 2) (7 - 3)
      = vp ++ "bar".data := rfl
  have hs : lookupC (stStar vp v).config
      (targetOf vp (lookupC (stStar vp v).config kK) (0 + 2) (7 - 3)) = v := by
    rw [htgt]
    rw [show (stStar vp v).config = (kK, vStar) :: [(vp ++ "bar".data, v)] from rfl]
    rw [lookupC_cons_ne _ _ _ _ (Ne.symm hne)]
    exact lookupC_cons_eq _ _ _
  have e2 := resolve_loop_var_fast (n + 1) vp kK [] (stStar vp v) 0 0 7 (by rfl) (by simp)
    (by rw [htgt]; intro hmem; exact hne (by simpa [stStar] using hmem))
  rw [e1, e2, hs]
  have hrepl : replaceRange (lookupC (stStar vp v).config kK) 0 7 v = v := by
    rw [show replaceRange (lookupC (stStar vp v).config kK) 0 7 v = v ++ [] from rfl]
    simp
  rw [hrepl]
  have e3 := resolve_loop_notfound n vp kK []
    (RcState.mk (setC (stStar vp v).config kK v) (stStar vp v).hasRef) (0 + v.length)
    ((lookupC (setC (stStar vp v).config kK v) kK).length + 1) 0 ?_
  · rw [e3]; rfl
  · rw [show lookupC (setC (stStar vp v).config kK v) kK = v from rfl]
    exact find_next_delayed_at_end v (0 + v.length) (by simp)

/-- Witness for C8 with prefix "foo_" and value "hello". -/
theorem c8_star_indirection_witness :
    resolvedValue (resolve_delayed_recurse 2 "foo_".data kK []
      (stStar "foo_".data "hello".data)) kK = some "hello".data :=
  c8_star_indirection 0 "foo_".data "hello".data (by decide)

end EixRc

namespace EixRc

/-- C10: when the skip loop scanning for the matching Fi reaches the end
of the value (DelayedNotFound), resolve_delayed_recurse fails with the
error text "IF without FI" carrying the offending key, a fifth error kind
distinct from the four the specification enumerates. -/
theorem c10_if_without_fi :
    (∀ n : Nat, resolve_delayed_recurse (n + 2) [] kK [] stUnterminated =
      some (Except.error ("IF without FI".data, kK))) ∧
    ("IF without FI".data ≠ "FI without IF".data ∧
     "IF without FI".data ≠ "ELSE without IF".data ∧
     "IF without FI".data ≠ "double ELSE".data ∧
     "IF without FI".data ≠ "self-reference".data) := by
  refine ⟨fun n => ?_, by decide⟩
  have e1 : resolve_delayed_recurse (n + 2) [] kK [] stUnterminated
      = resolve_loop (n + 2) [] kK [] stUnterminated 0 := by
    rw [resolve_delayed_recurse, if_pos (by simp [stUnterminated])]
  have hres : (if istrue (lookupC stUnterminated.config
        (targetOf [] (lookupC stUnterminated.config kK) (0 + 3) (5 - 4)))
      then decide (DelayedType.DelayedIf = DelayedType.DelayedIf)
      else decide (DelayedType.DelayedIf = DelayedType.DelayedNotif)) = true := by decide
  have hskip : (if true then skip_loop (n + 1) kK
        (eraseRange (lookupC stUnterminated.config kK) 0 5) 0 true false none 0
      else skip_loop (n + 1) kK (lookupC stUnterminated.config kK) (0 + 5) true false (some 0) 0)
      = some (Except.error ("IF without FI".data, kK)) := by
    rw [if_pos rfl]
    exact skip_loop_add n 1 kK ['A'] 0 true false none 0
      (Except.error ("IF without FI".data, kK)) (by decide)
  have e2 := resolve_loop_cond_err (n + 1) [] kK [] stUnterminated 0 0 5
    DelayedType.DelayedIf true ("IF without FI".data, kK) (by rfl) (Or.inl rfl) (by decide)
    (show (['X'] : Str) ∉ ([kK] : List Str) by decide) hres hskip
  rw [e1, e2]

/-- Witness for C10 at fuel 2. -/
theorem c10_if_without_fi_witness :
    resolve_delayed_recurse 2 [] kK [] stUnterminated =
      some (Except.error ("IF without FI".data, kK)) :=
  c10_if_without_fi.1 0

/-- C7 counterexample: the value "%\x7b\x7d" contains a Fi marker with no
open conditional, yet the discovery scan records no directive for it, the
key is never placed in has_reference, and the whole resolution pass
returns it unchanged without raising FiWithoutIf. -/
theorem c7_counterexample_bare_fi :
    find_next_delayed "%\x7b\x7d".data 0 = (DelayedType.DelayedFi, 0, 3) ∧
    scan_value "%\x7b\x7d".data = [] ∧
    (read_undelayed 4 [(kK, "%\x7b\x7d".data)] [] [] (fun _ => none)
      "EIX_".data "DIFF_".data).hasRef = [] ∧
    eixrc_resolve_pass 4 [] (read_undelayed 4 [(kK, "%\x7b\x7d".data)] [] []
      (fun _ => none) "EIX_".data "DIFF_".data) =
      some (Except.ok [(kK, "%\x7b\x7d".data)]) := by
  refine ⟨by decide, by decide, by decide, by decide⟩

/-- C7 amended: a key not in has_reference is returned unchanged and never
raises an error; for scanned keys, a Fi met with no open conditional
raises "FI without IF" and an Else met with no open conditional raises
"ELSE without IF" (both in full generality over states and positions), a
second Else at depth zero of one conditional raises "double ELSE", and a
well-formed nested conditional resolves without any error. -/
theorem c7_error_conditions :
    (∀ (fuel : Nat) (vp key : Str) (visited : List Str) (st : RcState),
      key ∉ st.hasRef → resolve_delayed_recurse fuel vp key visited st = some (Except.ok st)) ∧
    (∀ (fuel : Nat) (vp key : Str) (visited : List Str) (st : RcState) (pos p len : Nat),
      find_next_delayed (lookupC st.config key) pos = (DelayedType.DelayedFi, p, len) →
      resolve_loop (fuel + 1) vp key visited st pos =
        some (Except.error ("FI without IF".data, key))) ∧
    (∀ (fuel : Nat) (vp key : Str) (visited : List Str) (st : RcState) (pos p len : Nat),
      find_next_delayed (lookupC st.config key) pos = (DelayedType.DelayedElse, p, len) →
      resolve_loop (fuel + 1) vp key visited st pos =
        some (Except.error ("ELSE without IF".data, key))) ∧
    resolve_delayed_recurse 8 [] kK [] stDoubleElse =
      some (Except.error ("double ELSE".data, kK)) ∧
    resolve_delayed_recurse 8 [] kK [] stWellFormed =
      some (Except.ok (RcState.mk [(kK, ['x']), (['A'], ['1']), (['B'], ['0'])] [])) := by
  refine ⟨fun fuel vp key visited st h => ?_,
    fun fuel vp key visited st pos p len h => resolve_loop_fi fuel vp key visited st pos p len h,
    fun fuel vp key visited st pos p len h => resolve_loop_elsewo fuel vp key visited st pos p len h,
    by decide, by decide⟩
  rw [resolve_delayed_recurse, if_neg h]

/-- Witness for C7 at concrete states. -/
theorem c7_error_conditions_witness :
    resolve_delayed_recurse 5 [] kK [] (RcState.mk [(kK, "%\x7b\x7d".data)] []) =
      some (Except.ok (RcState.mk [(kK, "%\x7b\x7d".data)] [])) ∧
    resolve_loop 5 [] kK [] (RcState.mk [(kK, "%\x7b\x7d".data)] [kK]) 0 =
      some (Except.error ("FI without IF".data, kK)) ∧
    resolve_loop 5 [] kK [] (RcState.mk [(kK, "%\x7belse\x7dy".data)] [kK]) 0 =
      some (Except.error ("ELSE without IF".data, kK)) :=
  ⟨c7_error_conditions.1 5 [] kK [] (RcState.mk [(kK, "%\x7b\x7d".data)] []) (by decide),
   c7_error_conditions.2.1 4 [] kK [] (RcState.mk [(kK, "%\x7b\x7d".data)] [kK]) 0 0 3 (by decide),
   c7_error_conditions.2.2.1 4 [] kK [] (RcState.mk [(kK, "%\x7belse\x7dy".data)] [kK]) 0 0 7 (by decide)⟩

/-- C6 counterexample: after a kept conditional branch the source resolver
resumes scanning at the start of the retained text, not immediately after
it: on "%\x7b?X\x7d%\x7bY\x7d%\x7b\x7d" with X truthy the source resolver expands the
directive inside the retained branch and yields "hello", while the
variant that follows the claim's resume-after-the-retained-text wording
leaves "%\x7bY\x7d" unexpanded; the two results differ. -/
theorem c6_counterexample_retained_cursor :
    resolvedValue (resolve_delayed_recurse 8 [] kK [] stRetained) kK = some "hello".data ∧
    resolvedValue (resolve_speccursor 8 [] kK [] stRetained) kK = some "%\x7bY\x7d".data ∧
    ("hello".data : Str) ≠ "%\x7bY\x7d".data := by
  refine ⟨by decide, by decide, by decide⟩

/-- C6 amended: after a plain Variable directive the scan cursor advances
to the position immediately after the spliced-in replacement text, so
markers inside or at the boundary of the replacement are not re-scanned
("%\x7bV\x7d\x7bX\x7d" with V = "ab%" resolves to "ab%\x7bX\x7d"); after a complete
conditional block scanning resumes at the position where the retained
text starts, so directives inside the retained branch are still reached
("%\x7b?X\x7d%\x7bY\x7d%\x7b\x7d" with X truthy resolves to Y's value). -/
theorem c6_cursor_discipline :
    (∀ (fuel : Nat) (vp key : Str) (visited : List Str) (st : RcState) (pos p len : Nat),
      find_next_delayed (lookupC st.config key) pos = (DelayedType.DelayedVariable, p, len) →
      key ∉ visited →
      targetOf vp (lookupC st.config key) (p + 2) (len - 3) ∉ st.hasRef →
      resolve_loop (fuel + 1) vp key visited st pos =
        resolve_loop fuel vp key visited
          (RcState.mk
            (setC st.config key (replaceRange (lookupC st.config key) p len
              (lookupC st.config (targetOf vp (lookupC st.config key) (p + 2) (len - 3)))))
            st.hasRef)
          (p + (lookupC st.config (targetOf vp (lookupC st.config key) (p + 2) (len - 3))).length)) ∧
    resolvedValue (resolve_delayed_recurse 8 [] kK [] stBoundary) kK = some "ab%\x7bX\x7d".data ∧
    resolvedValue (resolve_delayed_recurse 8 [] kK [] stRetained) kK = some "hello".data := by
  exact ⟨resolve_loop_var_fast, by decide, by decide⟩

/-- Witness for C6 instantiating the variable-step clause. -/
theorem c6_cursor_discipline_witness :
    resolve_loop 5 [] kK [] (RcState.mk [(kK, dq ['V']), (['V'], ['w'])] [kK]) 0 =
      resolve_loop 4 [] kK []
        (RcState.mk
          (setC (RcState.mk [(kK, dq ['V']), (['V'], ['w'])] [kK]).config kK
            (replaceRange (lookupC (RcState.mk [(kK, dq ['V']), (['V'], ['w'])] [kK]).config kK) 0 4
              (lookupC (RcState.mk [(kK, dq ['V']), (['V'], ['w'])] [kK]).config
                (targetOf [] (lookupC (RcState.mk [(kK, dq ['V']), (['V'], ['w'])] [kK]).config kK)
                  (0 + 2) (4 - 3)))))
          [kK])
        (0 + (lookupC (RcState.mk [(kK, dq ['V']), (['V'], ['w'])] [kK]).config
          (targetOf [] (lookupC (RcState.mk [(kK, dq ['V']), (['V'], ['w'])] [kK]).config kK)
            (0 + 2) (4 - 3))).length) :=
  c6_cursor_discipline.1 4 [] kK [] (RcState.mk [(kK, dq ['V']), (['V'], ['w'])] [kK]) 0 0 4
    (by decide) (by decide) (by decide)

end EixRc

namespace EixRc

theorem findNextCand_done_unescaped (s : Str) (pos : Nat) (ty : DelayedType) (p len : Nat)
    (h : findNextCand s pos = CandResult.done (ty, p, len))
    (hty : ty ≠ DelayedType.DelayedNotFound) :
    p = 0 ∨ charAt s (p - 1) ≠ '%' := by
  rw [findNextCand] at h
  rcases hf : strFind s ('%' :: ['\x7b']) pos with _ | q
  · rw [hf] at h
    simp only [CandResult.done.injEq, Prod.mk.injEq] at h
    exact absurd h.1.symm hty
  · rw [hf] at h
    dsimp only [] at h
    by_cases hesc : 0 < q ∧ charAt s (q - 1) = '%'
    · rw [if_pos hesc] at h
      exact absurd h (by simp)
    · have hq : q = 0 ∨ charAt s (q - 1) ≠ '%' := by
        by_cases h0 : q = 0
        · exact Or.inl h0
        · refine Or.inr fun hc => hesc ⟨Nat.pos_of_ne_zero h0, hc⟩
      rw [if_neg hesc] at h
      by_cases hfi : charAt s (q + 2) = '\x7d'
      · rw [if_pos hfi] at h
        simp only [CandResult.done.injEq, Prod.mk.injEq] at h
        rw [← h.2.1]
        exact hq
      · rw [if_neg hfi] at h
        by_cases hfn : isFirstNameCharB (charAt s
            (if (if charAt s (q + 2) = '?' then DelayedType.DelayedIf
                 else if charAt s (q + 2) = '!' then DelayedType.DelayedNotif
                 else DelayedType.DelayedVariable) = DelayedType.DelayedVariable
             then q + 2 else q + 3)) = false
        · rw [if_pos hfn] at h
          exact absurd h (by simp)
        · rw [if_neg hfn] at h
          by_cases hcl : charAt s
              ((if (if charAt s (q + 2) = '?' then DelayedType.DelayedIf
                    else if charAt s (q + 2) = '!' then DelayedType.DelayedNotif
                    else DelayedType.DelayedVariable) = DelayedType.DelayedVariable
                then q + 2 else q + 3) + 1 +
               nameSpan (s.drop ((if (if charAt s (q + 2) = '?' then DelayedType.DelayedIf
                    else if charAt s (q + 2) = '!' then DelayedType.DelayedNotif
                    else DelayedType.DelayedVariable) = DelayedType.DelayedVariable
                then q + 2 else q + 3) + 1))) ≠ '\x7d'
          · rw [if_pos hcl] at h
            exact absurd h (by simp)
          · rw [if_neg hcl] at h
            simp only [CandResult.done.injEq, Prod.mk.injEq] at h
            rw [← h.2.1]
            exact hq

theorem findNextAux_unescaped (fuel : Nat) : ∀ (s : Str) (pos : Nat) (ty : DelayedType)
    (p len : Nat), findNextAux fuel s pos = (ty, p, len) → ty ≠ DelayedType.DelayedNotFound →
    p = 0 ∨ charAt s (p - 1) ≠ '%' := by
  induction fuel with
  | zero =>
    intro s pos ty p len h hty
    rw [findNextAux] at h
    simp only [Prod.mk.injEq] at h
    exact absurd h.1.symm hty
  | succ fuel ih =>
    intro s pos ty p len h hty
    rw [findNextAux] at h
    rcases hc : findNextCand s pos with r | pos2
    · rw [hc] at h
      subst h
      exact findNextCand_done_unescaped s pos ty p len (by rw [hc]) hty
    · rw [hc] at h
      exact ih s pos2 ty p len h hty

end EixRc

namespace EixRc

/-- C5: a marker "%\x7b" immediately preceded by '%' is never classified
as a directive by find_next_delayed (whenever the scanner reports a
directive at position p, either p = 0 or the preceding character is not
'%'), and after resolution the final pass rewrites "%%\x7b" to "%\x7b", so the
input value "%%\x7bX\x7d" comes out of the whole pipeline as the literal
"%\x7bX\x7d". -/
theorem c5_escape_round_trip :
    (∀ (s : Str) (pos : Nat) (ty : DelayedType) (p len : Nat),
      find_next_delayed s pos = (ty, p, len) → ty ≠ DelayedType.DelayedNotFound →
      p = 0 ∨ charAt s (p - 1) ≠ '%') ∧
    find_next_delayed "%%\x7bX\x7d".data 0 =
      (DelayedType.DelayedNotFound, ("%%\x7bX\x7d".data : Str).length + 1, 0) ∧
    unescape_value "%%\x7bX\x7d".data = "%\x7bX\x7d".data ∧
    eixrc_resolve_pass 4 [] (read_undelayed 4 [(kK, "%%\x7bX\x7d".data)] [] []
      (fun _ => none) "EIX_".data "DIFF_".data) =
      some (Except.ok [(kK, "%\x7bX\x7d".data)]) := by
  refine ⟨fun s pos ty p len h hty => ?_, by decide, by decide, by decide⟩
  rw [find_next_delayed] at h
  exact findNextAux_unescaped (s.length + 2) s pos ty p len h hty

/-- Witness for C5 instantiating the scanner clause at "a%\x7bB\x7d". -/
theorem c5_escape_round_trip_witness :
    (1 : Nat) = 0 ∨ charAt "a%\x7bB\x7d".data (1 - 1) ≠ '%' :=
  c5_escape_round_trip.1 "a%\x7bB\x7d".data 0 DelayedType.DelayedVariable 1 4
    (by decide) (by decide)

end EixRc

namespace EixRc

theorem lookupO_setC (m : List (Str × Str)) (k v k2 : Str) :
    lookupO (setC m k v) k2 = if k2 = k then some v else lookupO m k2 := by
  induction m with
  | nil =>
    simp only [setC, lookupO]
    by_cases h : k = k2
    · rw [if_pos h, if_pos h.symm]
    · rw [if_neg h, if_neg (fun hh => h hh.symm)]
  | cons kv rest ih =>
    by_cases h1 : kv.1 = k
    · rw [setC, if_pos h1]
      by_cases h2 : k = k2
      · simp only [lookupO, if_pos h2, if_pos h2.symm]
      · have h2a : ¬ k2 = k := fun hh => h2 hh.symm
        have h2b : ¬ kv.1 = k2 := fun hh => h2 (h1.symm.trans hh)
        simp only [lookupO, if_neg h2, if_neg h2a, if_neg h2b]
    · rw [setC, if_neg h1]
      by_cases h2 : kv.1 = k2
      · have hk2 : ¬ k2 = k := fun hh => h1 (h2.trans hh)
        simp only [lookupO, if_pos h2, if_neg hk2]
      · simp only [lookupO, if_neg h2, ih]

theorem lookupO_foldl_setC (o : List (Str × Str)) : ∀ (m : List (Str × Str)) (k : Str),
    lookupO (o.foldl (fun m kv => setC m kv.1 kv.2) m) k =
      (match ovLookup o k with
       | some v => some v
       | none => lookupO m k) := by
  induction o with
  | nil => intro m k; simp [ovLookup]
  | cons kv rest ih =>
    intro m k
    rw [List.foldl_cons, ih]
    rcases hr : ovLookup rest k with _ | v
    · simp only [ovLookup, hr]
      rw [lookupO_setC]
      by_cases h : kv.1 = k
      · rw [if_pos h.symm, if_pos h]
      · rw [if_neg (fun hh => h hh.symm), if_neg h]
    · simp [ovLookup, hr]

theorem lookupO_map_env (l : List (Str × Str)) (g : Str → Str → Str) (k : Str) :
    lookupO (l.map (fun kv => (kv.1, g kv.1 kv.2))) k = (lookupO l k).map (g k) := by
  induction l with
  | nil => simp [lookupO]
  | cons kv rest ih =>
    by_cases h : kv.1 = k
    · subst h; simp [lookupO]
    · simp [lookupO, h, ih]

theorem ovLookup_isSome_of_mem (l : List (Str × Str)) (k : Str)
    (h : k ∈ l.map Prod.fst) : (ovLookup l k).isSome = true := by
  induction l with
  | nil => simp at h
  | cons kv rest ih =>
    rw [List.map_cons, List.mem_cons] at h
    rcases hr : ovLookup rest k with _ | v
    · simp only [ovLookup, hr]
      rcases h with h1 | h1
      · simp [h1.symm]
      · have := ih h1; rw [hr] at this; simp at this
    · simp [ovLookup, hr]

theorem ovLookup_none_of_not_mem (l : List (Str × Str)) (k : Str)
    (h : k ∉ l.map Prod.fst) : ovLookup l k = none := by
  induction l with
  | nil => simp [ovLookup]
  | cons kv rest ih =>
    rw [List.map_cons] at h
    have h1 : kv.1 ≠ k := fun hh => h (by rw [List.mem_cons]; exact Or.inl hh.symm)
    have h2 : k ∉ rest.map Prod.fst := fun hh => h (by rw [List.mem_cons]; exact Or.inr hh)
    simp [ovLookup, ih h2, h1]

theorem ovLookup_map_value (l : List (Str × Str)) (f : Str → Str) (k : Str)
    (h : k ∈ l.map Prod.fst) :
    ovLookup (l.map (fun d => (d.1, f d.1))) k = some (f k) := by
  induction l with
  | nil => simp at h
  | cons d rest ih =>
    by_cases hr : k ∈ rest.map Prod.fst
    · have := ih hr
      simp only [List.map_cons, ovLookup, this]
    · have hd : d.1 = k := by
        rw [List.map_cons, List.mem_cons] at h
        rcases h with h1 | h1
        · exact h1.symm
        · exact absurd h1 hr
      have hnone : ovLookup (rest.map (fun d => (d.1, f d.1))) k = none := by
        apply ovLookup_none_of_not_mem
        simpa using hr
      simp [List.map_cons, ovLookup, hnone, hd]

theorem mem_foldl_insertS (l : List (Str × Str)) (k : Str) : ∀ acc : List Str,
    (k ∈ acc ∨ k ∈ l.map Prod.fst) →
    k ∈ l.foldl (fun ks d => insertS ks d.1) acc := by
  induction l with
  | nil =>
    intro acc h
    rcases h with h | h
    · exact h
    · simp at h
  | cons d rest ih =>
    intro acc h
    rw [List.foldl_cons]
    apply ih
    rcases h with h | h
    · left; unfold insertS; split
      · exact h
      · exact List.mem_append_left _ h
    · rw [List.map_cons, List.mem_cons] at h
      rcases h with h1 | h1
      · left; unfold insertS; split
        · rw [h1]; assumption
        · subst h1; exact List.mem_append_right _ (by simp)
      · right; exact h1

theorem join_delayed_preserve (tempmap : List (Str × Str)) (env : Str → Option Str)
    (key : Str) (u : Undelayed) (k : Str) (hk : k ∈ u.dkeys) :
    k ∈ (join_delayed tempmap env key u).dkeys ∧
    lookupO (join_delayed tempmap env key u).config k = lookupO u.config k := by
  unfold join_delayed
  by_cases h : key ∈ u.dkeys
  · simp [h, hk]
  · have hne : key ≠ k := fun hh => h (hh ▸ hk)
    simp only [if_neg h]
    constructor
    · exact List.mem_append_left _ hk
    · rw [lookupO_setC, if_neg (fun hh => hne (Eq.symm hh))]

theorem apply_joins_preserve (tempmap : List (Str × Str)) (env : Str → Option Str)
    (eixPfx diffPfx : Str) (items : List (Bool × Str)) : ∀ (u : Undelayed) (k : Str),
    k ∈ u.dkeys →
    k ∈ (apply_joins tempmap env eixPfx diffPfx items u).dkeys ∧
    lookupO (apply_joins tempmap env eixPfx diffPfx items u).config k = lookupO u.config k := by
  induction items with
  | nil => intro u k hk; exact ⟨hk, rfl⟩
  | cons item rest ih =>
    intro u k hk
    rw [apply_joins]
    by_cases hstar : item.1
    · simp only [hstar, if_pos]
      obtain ⟨m1, e1⟩ := join_delayed_preserve tempmap env (eixPfx ++ item.2) u k hk
      obtain ⟨m2, e2⟩ := join_delayed_preserve tempmap env (diffPfx ++ item.2)
        (join_delayed tempmap env (eixPfx ++ item.2) u) k m1
      obtain ⟨m3, e3⟩ := ih _ k m2
      exact ⟨m3, by rw [e3, e2, e1]⟩
    · simp only [Bool.not_eq_true] at hstar
      simp only [hstar, Bool.false_eq_true, if_false]
      obtain ⟨m1, e1⟩ := join_delayed_preserve tempmap env item.2 u k hk
      obtain ⟨m3, e3⟩ := ih _ k m1
      exact ⟨m3, by rw [e3, e1]⟩

theorem discover_preserve (tempmap : List (Str × Str)) (env : Str → Option Str)
    (eixPfx diffPfx : Str) (fuel : Nat) : ∀ (u : Undelayed) (i : Nat) (k : Str),
    k ∈ u.dkeys →
    lookupO (discover fuel tempmap env eixPfx diffPfx u i).config k = lookupO u.config k := by
  induction fuel with
  | zero => intro u i k _; rfl
  | succ fuel ih =>
    intro u i k hk
    rw [discover]
    rcases hd : u.defaults.get? i with _ | d
    · rfl
    · set u1 := if scan_value d.2 = [] then u else { u with hasRef := insertS u.hasRef d.1 } with hu1
      have hk1 : k ∈ u1.dkeys := by
        rw [hu1]; split
        · exact hk
        · exact hk
      have hc1 : lookupO u1.config k = lookupO u.config k := by
        rw [hu1]; split
        · rfl
        · rfl
      obtain ⟨m2, e2⟩ := apply_joins_preserve tempmap env eixPfx diffPfx (scan_value d.2) u1 k hk1
      rw [ih _ _ k m2, e2, hc1]

end EixRc

namespace EixRc

theorem lookupO_map_envf (env : Str → Option Str) (l : List (Str × Str)) (k : Str) :
    lookupO (l.map (fun kv => (kv.1, match env kv.1 with | some v => v | none => kv.2))) k
      = (lookupO l k).map (fun v => match env k with | some e => e | none => v) := by
  induction l with
  | nil => simp [lookupO]
  | cons kv rest ih =>
    by_cases h : kv.1 = k
    · subst h; simp [lookupO]
    · simp [lookupO, h, ih]

/-- C4: for every key of the compiled-in defaults, the working map built
by read_undelayed holds layered_value: the default, overridden by the
system overlay if it defines the key, then by the user overlay, then by
an environment variable whose name is exactly the key. -/
theorem c4_layering (fuel : Nat) (defaults0 sysfile userfile : List (Str × Str))
    (env : Str → Option Str) (eixPfx diffPfx : Str) (k : Str)
    (hk : k ∈ defaults0.map Prod.fst) :
    lookupO (read_undelayed fuel defaults0 sysfile userfile env eixPfx diffPfx).config k =
      some (layered_value defaults0 sysfile userfile env k) := by
  rw [read_undelayed]
  have hdk : k ∈ defaults0.foldl (fun ks d => insertS ks d.1) ([] : List Str) :=
    mem_foldl_insertS defaults0 k [] (Or.inr hk)
  rw [discover_preserve _ _ _ _ _ _ _ _ hdk]
  dsimp only []
  rw [lookupO_foldl_setC]
  rw [ovLookup_map_value defaults0 _ k hk]
  dsimp only []
  congr 1
  rw [lookupC, lookupO_map_envf]
  rw [lookupO_foldl_setC, lookupO_foldl_setC, lookupO_foldl_setC]
  obtain ⟨d0, hd0⟩ : ∃ v, ovLookup defaults0 k = some v :=
    Option.isSome_iff_exists.mp (ovLookup_isSome_of_mem defaults0 k hk)
  rw [layered_value]
  rcases hu : ovLookup userfile k with _ | vu <;>
    rcases hs : ovLookup sysfile k with _ | vs <;>
      rcases he : env k with _ | ve <;>
        simp [hd0, lookupC, lookupO_foldl_setC, lookupO]

/-- Witness for C4: a key defined in defaults, both overlay files, and the
environment ends up with the environment value. -/
theorem c4_layering_witness :
    lookupO (read_undelayed 4 [(kK, ['d'])] [(kK, ['s'])] [(kK, ['u'])]
      (fun k2 => if k2 = kK then some ['E'] else none) "EIX_".data "DIFF_".data).config kK =
      some (layered_value [(kK, ['d'])] [(kK, ['s'])] [(kK, ['u'])]
        (fun k2 => if k2 = kK then some ['E'] else none) kK) ∧
    layered_value [(kK, ['d'])] [(kK, ['s'])] [(kK, ['u'])]
      (fun k2 => if k2 = kK then some ['E'] else none) kK = ['E'] :=
  ⟨c4_layering 4 [(kK, ['d'])] [(kK, ['s'])] [(kK, ['u'])]
      (fun k2 => if k2 = kK then some ['E'] else none) "EIX_".data "DIFF_".data kK (by decide),
   by decide⟩

end EixRc

namespace EixRc

/-- C9: evaluation of getRedundantFlags at the failing input "no or all":
the source applies the second atom to the pair's first component again
(line 519 passes p.first), so the first component ends up configured by
"all" and the second component is never written, although applying the
"all" atom to it would change it; the non-fatal fall-back for an
unparsable value (warning, "all-installed" for the first component, the
absent rule for the second) is also evaluated. -/
theorem c9_second_atom_to_first :
    getRedundantFlags "no or all".data 1 (RedAtom.mk 0 0 0 0 0 0, RedAtom.mk 0 0 0 0 0 0) =
      ((RedAtom.mk 1 1 0 0 0 0, RedAtom.mk 0 0 0 0 0 0), false) ∧
    getRedundantFlagAtom (some "all".data) 1 (RedAtom.mk 0 0 0 0 0 0) =
      (true, RedAtom.mk 1 1 0 0 0 0) ∧
    RedAtom.mk 1 1 0 0 0 0 ≠ RedAtom.mk 0 0 0 0 0 0 ∧
    getRedundantFlags "garbage".data 1 (RedAtom.mk 0 0 0 0 0 0, RedAtom.mk 0 0 0 0 0 0) =
      ((RedAtom.mk 1 1 1 1 0 0, RedAtom.mk 0 0 0 0 0 0), true) := by
  refine ⟨by decide, by decide, by decide, by decide⟩

end EixRc
